import Mathlib

/-!
# Verification of the ai_camera perception pipeline

Shallow embedding of the perception-and-memory pipeline of the
`ai_camera_agent` repository, together with proofs of the specification's
testable properties.  Numeric values that Python holds as `float` are
modelled as rationals (`ℚ`); machine time (`time.time()`) is passed
explicitly as a parameter wherever the source reads the clock.
-/

namespace AiCamera


/-- Python's `int(x)` truncation toward zero, on a rational. -/
def pyInt (q : ℚ) : ℤ :=
  if 0 ≤ q then ⌊q⌋ else -⌊-q⌋

/-! ## common/types.py -/

/-- `BoundingBox` from `common/types.py`: four integer edges. -/
structure BoundingBox where
  x1 : ℤ
  y1 : ℤ
  x2 : ℤ
  y2 : ℤ
deriving DecidableEq, Repr

/-- `BoundingBox.to_list`. -/
def BoundingBox.toList (b : BoundingBox) : List ℤ :=
  [b.x1, b.y1, b.x2, b.y2]

/-- `Detection` from `common/types.py`: class label, confidence, box. -/
structure Detection where
  className : String
  confidence : ℚ
  box : BoundingBox
deriving DecidableEq, Repr

/-- One step of the dictionary count accumulation in
`DetectionResult.class_counts`: `counts[name] = counts.get(name, 0) + 1`,
with Python dict insertion order (first occurrence appends at the end). -/
def bumpCount : List (String × Nat) → String → List (String × Nat)
  | [], name => [(name, 1)]
  | (k, v) :: rest, name =>
      if k = name then (k, v + 1) :: rest
      else (k, v) :: bumpCount rest name

/-- `DetectionResult.class_counts` from `common/types.py`. -/
def classCounts (dets : List Detection) : List (String × Nat) :=
  dets.foldl (fun counts d => bumpCount counts d.className) []

/-! ## eye/detection/object_detector.py — the two-stage cascade (claim C1)

The detector state we track is the pair of target lists held by
`ObjectDetector` plus the `current_targets` attribute of the underlying
`BaseYoloClient` (its "active prompt").  `update_prompt` on the base
client is a plain assignment of `current_targets`. -/

/-- Mutable state of `ObjectDetector` plus its YOLO client's active
prompt (`BaseYoloClient.current_targets`). -/
structure DetectorState where
  prompt : List String
  stage1Targets : List String
  stage2Targets : List String
deriving DecidableEq, Repr

/-- `YoloConfig.DEFAULT_TARGETS`. -/
def defaultTargets : List String := ["person", "car", "bicycle", "motorcycle"]

/-- `YoloConfig.REFINE_TARGETS`. -/
def refineTargets : List String := ["face", "license plate", "mobile phone", "cigarette", "knife"]

/-- Detector state right after `_ensure_initialized`: the client prompt is
set to the stage-1 targets. -/
def initialDetectorState : DetectorState :=
  { prompt := defaultTargets
    stage1Targets := defaultTargets
    stage2Targets := refineTargets }

/-- The crop-validity test inside `detect_stage2`: after clamping the
Stage-1 box to the frame (`max(0, ·)` / `min(w|h, ·)`), only regions with
`x2 > x1 and y2 > y1` are processed. -/
def validCrop (w h : ℤ) (b : BoundingBox) : Bool :=
  decide (min w b.x2 > max 0 b.x1) && decide (min h b.y2 > max 0 b.y1)

/-- `ObjectDetector.detect_stage2`, restricted to its effect on the
detector/prompt state.  `throws` says whether the inference section of the
`try` block raises.  Control paths of the source:
* `tasks` empty → early return, state untouched;
* no valid crop survives clamping → `return []` inside the `try`
  before any prompt switch, state untouched;
* otherwise the prompt is switched to `stage2Targets`, inference runs, and
  the prompt is switched back to `stage1Targets` — on the success path by
  the final `update_prompt(self._stage1_targets)`, and on the exception
  path by the same call inside the `except` handler.  Either way the
  post-state prompt is `stage1Targets`. -/
def detectStage2 (s : DetectorState) (w h : ℤ) (tasks : List Detection)
    (throws : Bool) : DetectorState :=
  if tasks.isEmpty then s
  else if (tasks.filter (fun d => validCrop w h d.box)).isEmpty then s
  else if throws then { s with prompt := s.stage1Targets }
  else { s with prompt := s.stage1Targets }

/-- `ObjectDetector.detect_stage1`, restricted to its effect on the
prompt state: it begins with `update_prompt(self._stage1_targets)`; all
later failures are caught and do not touch the prompt. -/
def detectStage1 (s : DetectorState) : DetectorState :=
  { s with prompt := s.stage1Targets }

/-- `ObjectDetector.update_stage1_targets`: replaces the stage-1 list and
immediately syncs the client prompt (the client exists after init). -/
def updateStage1Targets (s : DetectorState) (targets : List String) : DetectorState :=
  { s with stage1Targets := targets, prompt := targets }

/-- `ObjectDetector.update_stage2_targets`: replaces only the stage-2
list; the client prompt is deliberately not touched. -/
def updateStage2Targets (s : DetectorState) (targets : List String) : DetectorState :=
  { s with stage2Targets := targets }

/-- The operations that can touch the detector state between two
`detect_stage2` calls. -/
inductive DetectorOp where
  | stage1 : DetectorOp
  | stage2 (w h : ℤ) (tasks : List Detection) (throws : Bool) : DetectorOp
  | updS1 (targets : List String) : DetectorOp
  | updS2 (targets : List String) : DetectorOp
deriving Repr

/-- Apply one detector operation. -/
def detectorStep (s : DetectorState) : DetectorOp → DetectorState
  | .stage1 => detectStage1 s
  | .stage2 w h tasks throws => detectStage2 s w h tasks throws
  | .updS1 t => updateStage1Targets s t
  | .updS2 t => updateStage2Targets s t

/-- Run a sequence of detector operations from a state. -/
def detectorRun (s : DetectorState) (ops : List DetectorOp) : DetectorState :=
  ops.foldl detectorStep s

/-- The resting invariant of the cascade: the client's active prompt
equals the detector's stage-1 target list. -/
def DetectorInv (s : DetectorState) : Prop :=
  s.prompt = s.stage1Targets

/-- `BaseYoloClient._calculate_iou` on two boxes `[x1, y1, x2, y2]`. -/
def calculateIou (a b : BoundingBox) : ℚ :=
  let xA := max a.x1 b.x1
  let yA := max a.y1 b.y1
  let xB := min a.x2 b.x2
  let yB := min a.y2 b.y2
  let interArea : ℤ := max 0 (xB - xA) * max 0 (yB - yA)
  if interArea = 0 then 0
  else
    let boxAArea : ℤ := (a.x2 - a.x1) * (a.y2 - a.y1)
    let boxBArea : ℤ := (b.x2 - b.x1) * (b.y2 - b.y1)
    (interArea : ℚ) / ((boxAArea : ℚ) + (boxBArea : ℚ) - (interArea : ℚ))

/-- One step of the class-grouping loop in `_apply_nms`
(`grouped.setdefault(cls, []).append(det)` with dict insertion order). -/
def addToGroups : List (String × List Detection) → Detection → List (String × List Detection)
  | [], d => [(d.className, [d])]
  | (c, g) :: rest, d =>
      if c = d.className then (c, g ++ [d]) :: rest
      else (c, g) :: addToGroups rest d

/-- The class grouping built by `_apply_nms`. -/
def groupByClass (dets : List Detection) : List (String × List Detection) :=
  dets.foldl addToGroups []

/-- Stable insertion step for Python's stable descending
`dets.sort(key=lambda x: x['confidence'], reverse=True)`: an element being
inserted came earlier in the original list than the already-sorted tail,
so on equal confidence it stays in front. -/
def insertDesc (d : Detection) : List Detection → List Detection
  | [] => [d]
  | e :: rest =>
      if e.confidence ≤ d.confidence then d :: e :: rest
      else e :: insertDesc d rest

/-- Stable descending sort by confidence (observably equal to CPython's
stable `list.sort(..., reverse=True)`). -/
def sortByConfDesc : List Detection → List Detection
  | [] => []
  | d :: rest => insertDesc d (sortByConfDesc rest)

/-- The greedy keep/drop loop of `_apply_nms`: pop the highest-confidence
detection, keep it, drop remaining detections of the group whose IOU with
it is not below the threshold, repeat. -/
def nmsKeep (thr : ℚ) : List Detection → List Detection
  | [] => []
  | best :: rest =>
      best :: nmsKeep thr (rest.filter (fun d => calculateIou best.box d.box < thr))
termination_by l => l.length
decreasing_by
  simp only [List.length_cons]
  exact Nat.lt_succ_of_le (List.length_filter_le _ _)

/-- `BaseYoloClient._apply_nms`: group by class, sort each group by
confidence descending, run the greedy suppression, concatenate the
per-class keeps in dict order. -/
def applyNms (thr : ℚ) (dets : List Detection) : List Detection :=
  if dets.isEmpty then []
  else (groupByClass dets).flatMap fun g => nmsKeep thr (sortByConfDesc g.2)

/-- Descending order by confidence. -/
def ConfDesc (a b : Detection) : Prop := b.confidence ≤ a.confidence

/-- Well-formedness of the grouping built by `addToGroups`: distinct
class keys, nonempty groups, and each member carries its group's class. -/
def GroupsWF (gs : List (String × List Detection)) : Prop :=
  (gs.map Prod.fst).Nodup ∧ ∀ p ∈ gs, p.2 ≠ [] ∧ ∀ d ∈ p.2, d.className = p.1

/-- The per-class pass of `_apply_nms`: stable descending confidence sort
followed by the greedy suppression loop. -/
def nmsClass (thr : ℚ) (dets : List Detection) : List Detection :=
  nmsKeep thr (sortByConfDesc dets)

/-- An entry of `StateFilter.tracked_objects`
(`{'id', 'class', 'box', 'center', 'is_moving', 'last_check_time'}`). -/
structure TrackedObj where
  id : Nat
  cls : String
  box : BoundingBox
  center : ℚ × ℚ
  isMoving : Bool
  lastCheck : ℚ
deriving DecidableEq, Repr

/-- Mutable state and configuration of `StateFilter`. -/
structure FilterState where
  tracked : List TrackedObj
  nextId : Nat
  iouThreshold : ℚ
  recheckInterval : ℚ
  movementThreshold : ℚ
  highPriority : List String
deriving DecidableEq, Repr

/-- `StateFilter._calculate_iou` (the variant with the `interArea <= 0`
guard and the `union != 0` check). -/
def stateFilterIou (a b : BoundingBox) : ℚ :=
  let xA := max a.x1 b.x1
  let yA := max a.y1 b.y1
  let xB := min a.x2 b.x2
  let yB := min a.y2 b.y2
  let interArea : ℤ := max 0 (xB - xA) * max 0 (yB - yA)
  if interArea ≤ 0 then 0
  else
    let boxAArea : ℤ := (a.x2 - a.x1) * (a.y2 - a.y1)
    let boxBArea : ℤ := (b.x2 - b.x1) * (b.y2 - b.y1)
    let union : ℚ := (boxAArea : ℚ) + (boxBArea : ℚ) - (interArea : ℚ)
    if union ≠ 0 then (interArea : ℚ) / union else 0

/-- Box center `((x1+x2)/2, (y1+y2)/2)` as computed in
`check_refinement_needs`. -/
def detCenter (b : BoundingBox) : ℚ × ℚ :=
  (((b.x1 : ℚ) + (b.x2 : ℚ)) / 2, ((b.y1 : ℚ) + (b.y2 : ℚ)) / 2)

/-- The movement test `math.sqrt(dx² + dy²) > movement_threshold` of
`check_refinement_needs`.  For the nonnegative configured threshold this
equals the square comparison `dx² + dy² > movement_threshold²`, which is
the form used here so that the whole computation stays in `ℚ`. -/
def movedBeyond (c p : ℚ × ℚ) (thr : ℚ) : Bool :=
  decide ((c.1 - p.1) ^ 2 + (c.2 - p.2) ^ 2 > thr ^ 2)

/-- The body of the matched branch of `check_refinement_needs`: update the
tracked object in place and emit refine tasks / VLM candidates according
to the wake / high-risk-cooldown / periodic-recheck conditions.  Returns
the updated object and the emissions `(refine_tasks, vlm_candidates)`. -/
def updateMatched (s : FilterState) (now : ℚ) (det : Detection) (prev : TrackedObj) :
    TrackedObj × List (Detection × Nat) × List Detection :=
  let center := detCenter det.box
  let isHighRisk := s.highPriority.contains det.className
  let isMoving := movedBeyond center prev.center s.movementThreshold
  let stateChanged := !prev.isMoving && isMoving
  let upd : TrackedObj := { prev with box := det.box, center := center, isMoving := isMoving }
  if stateChanged then
    (upd, [(det, prev.id)], [det])
  else if isHighRisk && isMoving then
    if now - prev.lastCheck > 2 then
      ({ upd with lastCheck := now }, [(det, prev.id)], [])
    else (upd, [], [])
  else if now - prev.lastCheck > s.recheckInterval then
    ({ upd with lastCheck := now },
      if isHighRisk then [(det, prev.id)] else [], [det])
  else (upd, [], [])

/-- The inner matching loop of `check_refinement_needs`: scan the tracked
list for the first object of the same class whose IOU with the new box
exceeds the threshold; on a hit, update it in place (the returned list is
the tracked list with that entry replaced) and stop. -/
def findAndUpdate (s : FilterState) (now : ℚ) (det : Detection) :
    List TrackedObj → Option (TrackedObj × List TrackedObj × List (Detection × Nat) × List Detection)
  | [] => none
  | o :: rest =>
      if o.cls = det.className ∧ stateFilterIou det.box o.box > s.iouThreshold then
        let r := updateMatched s now det o
        some (r.1, r.1 :: rest, r.2.1, r.2.2)
      else
        match findAndUpdate s now det rest with
        | none => none
        | some (upd, rest', rt, vc) => some (upd, o :: rest', rt, vc)

/-- Accumulator of the per-detection loop of `check_refinement_needs`. -/
structure FrameAcc where
  cur : List TrackedObj
  newList : List TrackedObj
  nextId : Nat
  refineTasks : List (Detection × Nat)
  vlmCandidates : List Detection
deriving Repr

/-- One iteration of the per-detection loop of `check_refinement_needs`.
(Python mutates matched tracker dicts in place while scanning the shared
`self.tracked_objects` list; this value-semantics rendering replaces the
matched entry in the scan list and appends its updated value to
`new_tracked_list`, which agrees with the source whenever no tracked
object is matched twice within one frame — in particular in every
single-detection frame.) -/
def processDetection (s : FilterState) (now : ℚ) (acc : FrameAcc) (det : Detection) : FrameAcc :=
  match findAndUpdate s now det acc.cur with
  | some (upd, cur', rt, vc) =>
      { acc with
          cur := cur'
          newList := acc.newList ++ [upd]
          refineTasks := acc.refineTasks ++ rt
          vlmCandidates := acc.vlmCandidates ++ vc }
  | none =>
      let tid := acc.nextId + 1
      let newObj : TrackedObj :=
        { id := tid, cls := det.className, box := det.box,
          center := detCenter det.box, isMoving := false, lastCheck := now }
      { acc with
          nextId := tid
          newList := acc.newList ++ [newObj]
          refineTasks := acc.refineTasks ++ [(det, tid)]
          vlmCandidates := acc.vlmCandidates ++ [det] }

/-- `StateFilter.check_refinement_needs`: returns
`(refine_tasks, vlm_candidates)` and the successor filter state. -/
def checkRefinementNeeds (s : FilterState) (dets : List Detection) (now : ℚ) :
    List (Detection × Nat) × List Detection × FilterState :=
  if dets.isEmpty then ([], [], { s with tracked := [] })
  else
    let acc0 : FrameAcc :=
      { cur := s.tracked, newList := [], nextId := s.nextId,
        refineTasks := [], vlmCandidates := [] }
    let acc := dets.foldl (processDetection s now) acc0
    (acc.refineTasks, acc.vlmCandidates,
      { s with tracked := acc.newList, nextId := acc.nextId })

/-! ## eye/memory/perception_memory.py — event lifecycle (claims C2, C3, C4, C10)

`time.time()` is the `now` field of each frame input;
`perception_result.timestamp` is the `ts` field.  The in-memory
`start_time`/`last_update_time` strings, which the source feeds to
`float(...)`, are modelled directly as rationals. -/

/-- `EventState` from `eye/memory/perception_memory.py`. -/
structure EventState where
  eventId : Option ℤ := none
  maxCounts : List (String × Nat) := []
  alertTags : List String := []
  startTime : ℚ := 0
  lastUpdateTime : ℚ := 0
  emptyFrameCounter : Nat := 0
  isActive : Bool := false
deriving DecidableEq, Repr

/-- A row of `security_events` as written by
`AsyncDBManager.start_event` / `close_event`. -/
structure DbEventRow where
  id : Nat
  startTime : ℚ
  endTime : ℚ
  status : String
  targetData : List (String × Nat)
  isAbnormal : Bool
  alertTags : List String
deriving DecidableEq, Repr

/-- One entry of `PerceptionMemory.event_history`. -/
structure HistEntry where
  timestamp : ℚ
  eventId : Option ℤ
  detections : List (String × Nat)
  alertTags : List String
deriving DecidableEq, Repr

/-- State of a `PerceptionMemory` instance together with its (optional)
database: configuration fields read from `EyeConfig`, the active
`EventState`, the history list, and the rows of the `security_events`
table (`dbNextId` playing SQLite's autoincrement / `lastrowid`). -/
structure MemState where
  event : EventState
  lossTolerance : Nat
  maxEventDuration : ℚ
  baseAlertClasses : List String
  dbConnected : Bool
  dbRows : List DbEventRow
  dbNextId : Nat
  history : List HistEntry
deriving DecidableEq, Repr

/-- One perception result handed to `PerceptionMemory.store`: the
processing-time clock value (`time.time()`), the frame timestamp, the
detections, the alert tags and the `event_id` value the result carries on
entry. -/
structure FrameInput where
  now : ℚ
  ts : ℚ
  dets : List Detection
  alertTags : List String
  resEventId : Option ℤ := none
deriving DecidableEq, Repr

/-- Modelled from the spec: `DetectionResult.has_detections` is read by
`_update_event_state` and constructed by `test_eye_database.py` but is
absent from `common/types.py`; per the spec ("triggered when a frame has
at least one detection") it is nonemptiness of the detection list. -/
def hasDetections (dets : List Detection) : Bool :=
  !dets.isEmpty

/-- Dictionary write `m[c] = n` with Python insertion order. -/
def setCount : List (String × Nat) → String → Nat → List (String × Nat)
  | [], c, n => [(c, n)]
  | (k, v) :: rest, c, n =>
      if k = c then (k, n) :: rest
      else (k, v) :: setCount rest c n

/-- Dictionary read `m.get(c, 0)`. -/
def getCount (m : List (String × Nat)) (c : String) : Nat :=
  (m.lookup c).getD 0

/-- `EventState.update_counts`: per-class running maximum. -/
def updateCounts (maxCounts : List (String × Nat)) (newCounts : List (String × Nat)) :
    List (String × Nat) :=
  newCounts.foldl
    (fun acc p => if p.2 > getCount acc p.1 then setCount acc p.1 p.2 else acc) maxCounts

/-- `EventState.add_alert_tag` (Python set insert, modelled as an
ordered, duplicate-free list). -/
def addTag (tags : List String) (t : String) : List String :=
  if tags.contains t then tags else tags ++ [t]

/-- `PerceptionMemory._is_visual_abnormal`. -/
def isVisualAbnormal (base : List String) (dets : List Detection) : Bool :=
  dets.any fun d => base.contains d.className

/-- `EventState.reset`: clears `event_id`, `max_counts`, `alert_tags`,
`empty_frame_counter` and `is_active`; the two timestamp fields are not
touched by the source's `reset` and are likewise kept here. -/
def resetEvent (e : EventState) : EventState :=
  { e with eventId := none, maxCounts := [], alertTags := [],
           emptyFrameCounter := 0, isActive := false }

/-- `AsyncDBManager.start_event`: inserts a `security_events` row with
status `'ongoing'` and yields `lastrowid` (= `dbNextId`); the caller in
`_start_event` discards that return value. -/
def dbStartEvent (m : MemState) (startTime : ℚ) (targets : List (String × Nat))
    (abn : Bool) (tags : List String) : MemState :=
  if m.dbConnected then
    { m with
        dbRows := m.dbRows ++
          [{ id := m.dbNextId, startTime := startTime, endTime := startTime,
             status := "ongoing", targetData := targets, isAbnormal := abn,
             alertTags := tags }]
        dbNextId := m.dbNextId + 1 }
  else m

/-- `AsyncDBManager.close_event`: `UPDATE security_events SET end_time,
status='closed' WHERE id = row_id`, called with the in-memory event id. -/
def dbCloseEvent (m : MemState) (eid : Option ℤ) (endTime : ℚ) : MemState :=
  if m.dbConnected then
    { m with
        dbRows := m.dbRows.map fun r =>
          if some (r.id : ℤ) = eid then
            { r with endTime := endTime, status := "closed" }
          else r }
  else m

/-- `PerceptionMemory._start_event`: fabricates
`event_id = int(time.time() * 1000)`, fills the in-memory event state
from the frame (adding the `"visual"` tag when the frame is visually
abnormal), and then performs the database insert whose generated id is
discarded. -/
def startEvent (m : MemState) (now ts : ℚ) (counts : List (String × Nat))
    (abn : Bool) (tags : List String) : MemState :=
  let eid : ℤ := pyInt (now * 1000)
  let tags' := if abn then addTag tags "visual" else tags
  let e : EventState :=
    { eventId := some eid, maxCounts := counts, alertTags := tags',
      startTime := ts, lastUpdateTime := ts, emptyFrameCounter := 0,
      isActive := true }
  dbStartEvent { m with event := e } ts counts abn tags'

/-- `PerceptionMemory._update_event` as invoked from
`_update_event_state` (with `new_visual_risk` left at its `False`
default, so no database write is made). -/
def updateEventTs (m : MemState) (ts : ℚ) : MemState :=
  if m.event.isActive then
    { m with event := { m.event with lastUpdateTime := ts } }
  else m

/-- `PerceptionMemory._close_event`: no-op when idle; otherwise closes
the database row for the in-memory event id and resets the event state. -/
def closeEvent (m : MemState) (ts : ℚ) : MemState :=
  if m.event.isActive then
    let m' := dbCloseEvent m m.event.eventId ts
    { m' with event := resetEvent m'.event }
  else m

/-- `PerceptionMemory._update_event_state`.  Returns the successor state
and the value assigned to `perception_result.event_id` (`none` when the
field is not assigned, which happens on every path except the two
event-start paths). -/
def updateEventState (m : MemState) (f : FrameInput) : MemState × Option ℤ :=
  if hasDetections f.dets then
    let m₀ : MemState := { m with event := { m.event with emptyFrameCounter := 0 } }
    let counts := classCounts f.dets
    let abn := isVisualAbnormal m₀.baseAlertClasses f.dets
    if m₀.event.isActive ∧ f.now - m₀.event.startTime > m₀.maxEventDuration then
      let m₁ := closeEvent m₀ f.ts
      let m₂ := startEvent m₁ f.now f.ts counts abn f.alertTags
      (m₂, m₂.event.eventId)
    else if !m₀.event.isActive then
      let m₂ := startEvent m₀ f.now f.ts counts abn f.alertTags
      (m₂, m₂.event.eventId)
    else
      let m₁ : MemState :=
        { m₀ with event :=
            { m₀.event with maxCounts := updateCounts m₀.event.maxCounts counts } }
      (updateEventTs m₁ f.ts, none)
  else
    let m₀ : MemState :=
      { m with event :=
          { m.event with emptyFrameCounter := m.event.emptyFrameCounter + 1 } }
    if m₀.event.isActive ∧ m₀.event.emptyFrameCounter ≥ m₀.lossTolerance then
      (closeEvent m₀ f.ts, none)
    else (m₀, none)

/-- `PerceptionMemory.store`.  `raiseErr` injects a runtime exception at
the head of `_update_event_state` (such as the `AttributeError` from the
missing `has_detections` attribute, or a `ValueError` from
`float(start_time)` on a malformed timestamp), which occurs before any
mutation; the surrounding `try/except` turns it into a `False` return.
On the normal path the history entry records the frame's resulting
`event_id`, and the history is trimmed to its last 50 entries once it
exceeds 100. -/
def store (m : MemState) (f : FrameInput) (raiseErr : Bool) : MemState × Bool :=
  if raiseErr then (m, false)
  else
    let r := updateEventState m f
    let entry : HistEntry :=
      { timestamp := f.ts
        eventId := match r.2 with | some v => some v | none => f.resEventId
        detections := classCounts f.dets
        alertTags := f.alertTags }
    let h := r.1.history ++ [entry]
    let h' := if h.length > 100 then h.drop (h.length - 50) else h
    ({ r.1 with history := h' }, true)

/-- Successive `store` calls (the analysis lane is the only writer). -/
def runStore (m : MemState) (frames : List FrameInput) : MemState :=
  frames.foldl (fun m f => (store m f false).1) m

/-! ### Concrete states used by the witnesses -/

/-- The active event state of `memC2`. -/
def eventC2 : EventState :=
  { eventId := some 5, maxCounts := [("person", 1)], alertTags := [],
    startTime := 100, lastUpdateTime := 100, emptyFrameCounter := 0,
    isActive := true }

/-- A small concrete memory state with an active event (id 5, empty-frame
tolerance 2), used by witnesses. -/
def memC2 : MemState :=
  { event := eventC2,
    lossTolerance := 2,
    maxEventDuration := 300,
    baseAlertClasses := ["fire", "smoke", "blood", "knife", "fall"],
    dbConnected := false,
    dbRows := [],
    dbNextId := 1,
    history := [] }

/-- A detection-free frame at time `t`. -/
def emptyFrameAt (t : ℚ) : FrameInput :=
  { now := t, ts := t, dets := [], alertTags := [] }

/-- A `person` detection used by witnesses. -/
def personDet : Detection :=
  { className := "person", confidence := 9/10, box := ⟨0, 0, 10, 10⟩ }

/-- A frame containing one `person` detection at time `t`. -/
def personFrameAt (t : ℚ) : FrameInput :=
  { now := t, ts := t, dets := [personDet], alertTags := [] }

/-- The "first event" shape of the max-duration rollover scenario: one
event active since `t0`, one `security_events` row written. -/
def RollCase1 (t0 : ℚ) (m : MemState) : Prop :=
  m.event.isActive = true ∧ m.event.startTime = t0 ∧ m.dbRows.length = 1

/-- The "rolled-over" shape: the active event started strictly after
`t0 + D`, two `security_events` rows written. -/
def RollCase2 (t0 D : ℚ) (m : MemState) : Prop :=
  m.event.isActive = true ∧ t0 + D < m.event.startTime ∧ m.dbRows.length = 2

/-- Configuration of the rollover scenario: maximum event duration `D`,
database connected. -/
def RollCfg (D : ℚ) (m : MemState) : Prop :=
  m.maxEventDuration = D ∧ m.dbConnected = true

/-- A frame of the continuous-detection scenario: nonempty detections,
timestamp equal to the processing clock, time within `[t0, t0 + 2D]`. -/
def QualFrame (t0 D : ℚ) (f : FrameInput) : Prop :=
  f.dets ≠ [] ∧ f.ts = f.now ∧ t0 ≤ f.now ∧ f.now ≤ t0 + 2 * D

/-- Active event with id 7 started at time 0, for the rollover witness. -/
def eventC3 : EventState :=
  { eventId := some 7, maxCounts := [("person", 1)], alertTags := [],
    startTime := 0, lastUpdateTime := 0, emptyFrameCounter := 0,
    isActive := true }

/-- Memory state with an active event at time 0 (max duration 300),
database connected, for the rollover witness. -/
def memC3a : MemState :=
  { event := eventC3,
    lossTolerance := 15,
    maxEventDuration := 300,
    baseAlertClasses := ["fire", "smoke", "blood", "knife", "fall"],
    dbConnected := true,
    dbRows := [],
    dbNextId := 2,
    history := [] }

/-- Idle memory state with empty database, for the rollover witness. -/
def memC3b : MemState :=
  { event := {},
    lossTolerance := 15,
    maxEventDuration := 300,
    baseAlertClasses := ["fire", "smoke", "blood", "knife", "fall"],
    dbConnected := true,
    dbRows := [],
    dbNextId := 1,
    history := [] }

/-- A stationary tracked object used by the tracker witness. -/
def objT : TrackedObj :=
  { id := 1, cls := "person", box := ⟨0, 0, 400, 400⟩, center := (200, 200),
    isMoving := false, lastCheck := 0 }

/-- Filter state holding `objT`, with the default thresholds. -/
def filterS0 : FilterState :=
  { tracked := [objT], nextId := 1, iouThreshold := 85/100,
    recheckInterval := 15, movementThreshold := 20,
    highPriority := ["fire", "smoke", "blood", "knife", "fall"] }

/-- Same-class detection shifted by 4 px (small displacement). -/
def detSmall : Detection :=
  { className := "person", confidence := 9/10, box := ⟨4, 0, 404, 400⟩ }

/-- Same-class detection shifted by 22 px (wake-sized displacement). -/
def detBig : Detection :=
  { className := "person", confidence := 9/10, box := ⟨22, 0, 422, 400⟩ }

/-! ## eye/detection/yolo_client.py — detect_async rate gate (claim C9) -/

/-- The per-client rate-gate state of `BaseYoloClient`
(`last_send_time`, `interval = 1.0 / max(1, DETECT_FPS)`, NMS
threshold). -/
structure GateState where
  lastSendTime : ℚ
  interval : ℚ
  nmsThreshold : ℚ
deriving DecidableEq, Repr

/-- `interval = 1.0 / max(1, DETECT_FPS)`. -/
def intervalOfFps (fps : ℤ) : ℚ :=
  1 / (max 1 fps : ℤ)

/-- `BaseYoloClient.detect_async`: the rate gate returns
`([], frame)` untouched when the call arrives less than `interval` after
`last_send_time`; otherwise `last_send_time` is updated, `_detect` runs
(its raw result `raw` and the drawn frame `plotted` are oracle inputs,
`throws` injecting an exception caught by the handler), and the NMS-ed
detections are returned.  The last component records whether `_detect`
was invoked. -/
def detectAsync {α : Type} (s : GateState) (now : ℚ) (frame : α)
    (raw : List Detection) (plotted : α) (throws : Bool) :
    GateState × List Detection × α × Bool :=
  if now - s.lastSendTime < s.interval then (s, [], frame, false)
  else
    let s' : GateState := { s with lastSendTime := now }
    if throws then (s', [], frame, true)
    else (s', applyNms s.nmsThreshold raw, plotted, true)

/-- A gate state at epoch 0 with the default `DETECT_FPS = 5` interval
and the default NMS threshold. -/
def gateS0 : GateState :=
  { lastSendTime := 0, interval := intervalOfFps 5, nmsThreshold := 45/100 }

/-! ## eye/analysis/scene_analyzer.py — response parsing (claim C8)

`_parse_response` strips markdown fences, slices the text between the
first `{` and the last `}`, and calls `json.loads` on it; that
cleaning-plus-`json.loads` library step is modelled as an oracle input
(`Except Unit JValue`), and everything after it is modelled from the
source. -/

/-- A parsed JSON value (the possible results of `json.loads`). -/
inductive JValue where
  | null : JValue
  | bool (b : Bool) : JValue
  | num (q : ℚ) : JValue
  | str (s : String) : JValue
  | arr (xs : List JValue) : JValue
  | obj (fields : List (String × JValue)) : JValue
deriving Repr

/-- Python `bool(x)` truthiness on a JSON value. -/
def pythonBool : JValue → Bool
  | .null => false
  | .bool b => b
  | .num q => decide (q ≠ 0)
  | .str s => decide (s ≠ "")
  | .arr xs => !xs.isEmpty
  | .obj fs => !fs.isEmpty

/-- `AnalysisResult` as produced by `_parse_response` (Python is
dynamically typed, so `description` and `reason` carry whatever JSON
value `res.get` returned). -/
structure AnalysisResultM where
  description : JValue
  isAbnormal : Bool
  reason : JValue
  rawResponse : String
deriving Repr

/-- `SceneAnalyzer._parse_response` after the `json.loads` oracle:
* a JSON object builds the result via `res.get` with the source's
  defaults and `bool(...)` coercion of `is_abnormal`;
* any non-object JSON value makes `res.get` raise `AttributeError`,
  which the generic `except Exception` handler turns into `None`;
* a `json.JSONDecodeError` degrades to the best-effort result whose
  description is the raw text truncated to 100 characters (or
  `"解析失败"` when the raw text is empty/falsy) and whose abnormal flag
  is `False`.
No path lets an exception escape. -/
def parseResponse (raw : String) (loadResult : Except Unit JValue) :
    Option AnalysisResultM :=
  match loadResult with
  | .ok (.obj fields) =>
      some { description := ((fields.lookup "description").getD (.str "分析完成")),
             isAbnormal := pythonBool ((fields.lookup "is_abnormal").getD (.bool false)),
             reason := ((fields.lookup "reason").getD (.str "")),
             rawResponse := raw }
  | .ok _ => none
  | .error _ =>
      some { description := .str (if raw = "" then "解析失败" else raw.take 100),
             isAbnormal := false,
             reason := .str "",
             rawResponse := raw }

/-! ## RefinedFeature deduplication (claim C5)

Modelled from the spec: the per-tracked-identity vector cache and the
event's accumulated, capped feature list of §4.6 are absent from `src/`
(`EventState` in `eye/memory/perception_memory.py` carries no vector
cache or feature-list field, and no similarity computation exists
anywhere in the tree; only the spec and the `security_events.refine_data`
schema mention them).  The definitions below follow the spec's words:
keep a feature iff (a) no cached embedding exists for its tracked
identity, or (b) at least the minimum update interval has elapsed since
the identity's last kept update AND the similarity to the cached
embedding is below the 0.99 threshold; kept features update the cache
and are appended to the feature list, trimmed to the most recent 50
entries.  The embedding type and the similarity function (cosine in the
spec) are parameters. -/

/-- A Stage-2 refined feature carrying a tracked identity, an embedding
and its arrival time.  Modelled from the spec (see section comment). -/
structure RefFeature (E : Type) where
  trackId : Nat
  emb : E
  time : ℚ
deriving DecidableEq, Repr

/-- The dedup state: identity → (last kept embedding, last kept time),
plus the event's accumulated feature list.  Modelled from the spec. -/
structure DedupState (E : Type) where
  cache : List (Nat × E × ℚ)
  features : List (RefFeature E)
deriving DecidableEq, Repr

/-- Spec default similarity threshold. -/
def simThreshold : ℚ := 99/100

/-- Spec default feature-list cap. -/
def featureCap : Nat := 50

/-- Cache write (replace or append). -/
def cacheSet {E : Type} : List (Nat × E × ℚ) → Nat → E × ℚ → List (Nat × E × ℚ)
  | [], tid, v => [(tid, v)]
  | (k, w) :: rest, tid, v =>
      if k = tid then (k, v) :: rest
      else (k, w) :: cacheSet rest tid v

/-- Keeping a feature: update the cache and append to the feature list,
trimmed to the most recent `featureCap` entries. -/
def keepFeature {E : Type} (s : DedupState E) (f : RefFeature E) : DedupState E :=
  { cache := cacheSet s.cache f.trackId (f.emb, f.time),
    features :=
      (s.features ++ [f]).drop ((s.features ++ [f]).length - featureCap) }

/-- The keep/drop decision of §4.6 for one feature. -/
def processFeature {E : Type} (sim : E → E → ℚ) (minInterval : ℚ)
    (s : DedupState E) (f : RefFeature E) : DedupState E × Bool :=
  match s.cache.lookup f.trackId with
  | none => (keepFeature s f, true)
  | some (e, tLast) =>
      if f.time - tLast ≥ minInterval ∧ sim e f.emb < simThreshold then
        (keepFeature s f, true)
      else (s, false)

/-- One fold step over a feature stream, counting kept features. -/
def dedupStep {E : Type} (sim : E → E → ℚ) (minInterval : ℚ)
    (acc : DedupState E × Nat) (f : RefFeature E) : DedupState E × Nat :=
  let r := processFeature sim minInterval acc.1 f
  (r.1, acc.2 + (if r.2 then 1 else 0))

/-- Process a stream of features; returns the final state and the number
of kept features. -/
def runDedup {E : Type} (sim : E → E → ℚ) (minInterval : ℚ)
    (s : DedupState E) (fs : List (RefFeature E)) : DedupState E × Nat :=
  fs.foldl (dedupStep sim minInterval) (s, 0)

/-- Arrival times spaced by at least `minInterval`, starting after
`t₀`. -/
def SpacedFrom {E : Type} (minInterval : ℚ) : ℚ → List (RefFeature E) → Prop
  | _, [] => True
  | t₀, f :: rest => f.time - t₀ ≥ minInterval ∧ SpacedFrom minInterval f.time rest

/-- A degenerate similarity on rational "embeddings": 1 on equal values,
0 otherwise — used by witnesses. -/
def simEq : ℚ → ℚ → ℚ := fun a b => if a = b then 1 else 0

/-- The constant-zero similarity (everything dissimilar), used by
witnesses. -/
def simEq2 : ℚ → ℚ → ℚ := fun _ _ => 0

/-! ## Theorems -/

theorem detectorInv_initial : DetectorInv initialDetectorState := rfl

theorem detectorInv_step (s : DetectorState) (h : DetectorInv s) (op : DetectorOp) :
    DetectorInv (detectorStep s op) := by
  cases op with
  | stage1 => simp [detectorStep, detectStage1, DetectorInv]
  | stage2 w h' tasks throws =>
      simp only [detectorStep, detectStage2]
      split
      · exact h
      · split
        · exact h
        · split <;> simp [DetectorInv]
  | updS1 t => simp [detectorStep, updateStage1Targets, DetectorInv]
  | updS2 t => simpa [detectorStep, updateStage2Targets, DetectorInv] using h

theorem detectorInv_run (s : DetectorState) (h : DetectorInv s) (ops : List DetectorOp) :
    DetectorInv (detectorRun s ops) := by
  induction ops generalizing s with
  | nil => exact h
  | cons op rest ih => exact ih _ (detectorInv_step s h op)

/-- C1: for every call to `ObjectDetector.detect_stage2` reachable in the
initialized detector (after any sequence of detection calls and target
updates), with any task list and whether or not the inference section
raises, the YOLO client's active prompt equals the detector's current
stage-1 target list immediately after the call returns. -/
theorem detectStage2_restores_stage1_prompt
    (ops : List DetectorOp) (w h : ℤ) (tasks : List Detection) (throws : Bool) :
    (detectStage2 (detectorRun initialDetectorState ops) w h tasks throws).prompt =
      (detectStage2 (detectorRun initialDetectorState ops) w h tasks throws).stage1Targets := by
  have hinv := detectorInv_run initialDetectorState detectorInv_initial ops
  exact detectorInv_step _ hinv (.stage2 w h tasks throws)

/-! ## eye/detection/yolo_client.py — per-class NMS (claim C7) -/

theorem nmsKeep_sublist (thr : ℚ) (l : List Detection) : (nmsKeep thr l).Sublist l := by
  induction l using nmsKeep.induct thr with
  | case1 => simp [nmsKeep]
  | case2 best rest ih =>
      rw [nmsKeep]
      exact (ih.trans (List.filter_sublist rest)).cons₂ best

theorem mem_insertDesc {d e : Detection} {l : List Detection} :
    e ∈ insertDesc d l ↔ e = d ∨ e ∈ l := by
  induction l with
  | nil => simp [insertDesc]
  | cons x xs ih =>
      by_cases h : x.confidence ≤ d.confidence
      · rw [insertDesc, if_pos h]
        simp
      · rw [insertDesc, if_neg h]
        simp only [List.mem_cons, ih]
        tauto

theorem mem_sortByConfDesc {e : Detection} {l : List Detection} :
    e ∈ sortByConfDesc l ↔ e ∈ l := by
  induction l with
  | nil => simp [sortByConfDesc]
  | cons x xs ih => simp [sortByConfDesc, mem_insertDesc, ih]

theorem insertDesc_pairwise {d : Detection} {l : List Detection}
    (h : l.Pairwise ConfDesc) : (insertDesc d l).Pairwise ConfDesc := by
  induction l with
  | nil => simp [insertDesc, List.pairwise_singleton]
  | cons x xs ih =>
      rcases List.pairwise_cons.mp h with ⟨hx, hxs⟩
      by_cases hc : x.confidence ≤ d.confidence
      · rw [insertDesc, if_pos hc]
        refine List.pairwise_cons.mpr ⟨?_, h⟩
        intro e he
        rcases List.mem_cons.mp he with rfl | he
        · exact hc
        · exact le_trans (hx e he) hc
      · rw [insertDesc, if_neg hc]
        refine List.pairwise_cons.mpr ⟨?_, ih hxs⟩
        intro e he
        rcases mem_insertDesc.mp he with rfl | he
        · exact le_of_not_le hc
        · exact hx e he

theorem sortByConfDesc_pairwise (l : List Detection) :
    (sortByConfDesc l).Pairwise ConfDesc := by
  induction l with
  | nil => simp [sortByConfDesc]
  | cons x xs ih => exact insertDesc_pairwise ih

theorem sortByConfDesc_sorted_id {l : List Detection}
    (h : l.Pairwise ConfDesc) : sortByConfDesc l = l := by
  induction l with
  | nil => rfl
  | cons x xs ih =>
      rcases List.pairwise_cons.mp h with ⟨hx, hxs⟩
      rw [sortByConfDesc, ih hxs]
      cases xs with
      | nil => rfl
      | cons y ys =>
          have hy : y.confidence ≤ x.confidence := hx y (List.mem_cons_self y ys)
          rw [insertDesc, if_pos hy]

theorem filter_nmsKeep_filter (thr : ℚ) (p : Detection → Bool) (l : List Detection) :
    (nmsKeep thr (l.filter p)).filter p = nmsKeep thr (l.filter p) := by
  apply List.filter_eq_self.mpr
  intro d hd
  exact List.of_mem_filter (List.Sublist.mem hd (nmsKeep_sublist thr _))

theorem nmsKeep_idem (thr : ℚ) (l : List Detection) :
    nmsKeep thr (nmsKeep thr l) = nmsKeep thr l := by
  induction l using nmsKeep.induct thr with
  | case1 => simp [nmsKeep]
  | case2 best rest ih =>
      rw [nmsKeep]
      conv_lhs => rw [nmsKeep]
      rw [filter_nmsKeep_filter, ih]

theorem addToGroups_keys_sub (gs : List (String × List Detection)) (d : Detection) :
    ∀ x ∈ (addToGroups gs d).map Prod.fst, x ∈ d.className :: gs.map Prod.fst := by
  induction gs with
  | nil => simp [addToGroups]
  | cons r rs ihr =>
      obtain ⟨cr, gr⟩ := r
      by_cases hcr : cr = d.className
      · intro x hx
        simp only [addToGroups, if_pos hcr, List.map_cons, List.mem_cons] at hx ⊢
        tauto
      · intro x hx
        simp only [addToGroups, if_neg hcr, List.map_cons, List.mem_cons] at hx ⊢
        rcases hx with rfl | hx
        · tauto
        · rcases List.mem_cons.mp (ihr x hx) with h1 | h1 <;> tauto

theorem addToGroups_wf {gs : List (String × List Detection)} (h : GroupsWF gs)
    (d : Detection) : GroupsWF (addToGroups gs d) := by
  induction gs with
  | nil =>
      refine ⟨by simp [addToGroups], ?_⟩
      intro p hp
      simp only [addToGroups, List.mem_singleton] at hp
      subst hp
      simp
  | cons q rest ih =>
      obtain ⟨c, g⟩ := q
      rcases h with ⟨hnd, hmem⟩
      rw [List.map_cons, List.nodup_cons] at hnd
      by_cases hc : c = d.className
      · refine ⟨?_, ?_⟩
        · simp only [addToGroups, if_pos hc, List.map_cons, List.nodup_cons]
          exact hnd
        · intro p hp
          simp only [addToGroups, if_pos hc, List.mem_cons] at hp
          rcases hp with rfl | hp
          · constructor
            · simp
            · intro e he
              rcases List.mem_append.mp he with he | he
              · exact (hmem (c, g) (List.mem_cons_self _ _)).2 e he
              · rw [List.mem_singleton] at he
                subst he
                exact hc.symm
          · exact hmem p (List.mem_cons_of_mem _ hp)
      · have hrest : GroupsWF rest :=
          ⟨hnd.2, fun p hp => hmem p (List.mem_cons_of_mem _ hp)⟩
        have hih := ih hrest
        refine ⟨?_, ?_⟩
        · rw [show addToGroups ((c, g) :: rest) d = (c, g) :: addToGroups rest d from
            by rw [addToGroups, if_neg hc], List.map_cons, List.nodup_cons]
          refine ⟨?_, hih.1⟩
          intro hcmem
          rcases List.mem_cons.mp (addToGroups_keys_sub rest d c hcmem) with h1 | h1
          · exact hc h1
          · exact hnd.1 h1
        · intro p hp
          rw [show addToGroups ((c, g) :: rest) d = (c, g) :: addToGroups rest d from
            by rw [addToGroups, if_neg hc], List.mem_cons] at hp
          rcases hp with rfl | hp
          · exact hmem (c, g) (List.mem_cons_self _ _)
          · exact hih.2 p hp

theorem addToGroups_not_mem {acc : List (String × List Detection)} {d : Detection}
    (h : d.className ∉ acc.map Prod.fst) :
    addToGroups acc d = acc ++ [(d.className, [d])] := by
  induction acc with
  | nil => rfl
  | cons a rest ih =>
      obtain ⟨c, g⟩ := a
      simp only [List.map_cons, List.mem_cons] at h
      push_neg at h
      rw [show addToGroups ((c, g) :: rest) d = (c, g) :: addToGroups rest d from
        by rw [addToGroups, if_neg (Ne.symm h.1)], ih h.2, List.cons_append]

theorem addToGroups_last {acc : List (String × List Detection)} {c : String}
    {g : List Detection} {x : Detection} (hx : x.className = c)
    (h : c ∉ acc.map Prod.fst) :
    addToGroups (acc ++ [(c, g)]) x = acc ++ [(c, g ++ [x])] := by
  induction acc with
  | nil =>
      simp only [List.nil_append]
      rw [addToGroups, if_pos hx.symm]
  | cons a rest ih =>
      obtain ⟨ca, ga⟩ := a
      simp only [List.map_cons, List.mem_cons] at h
      push_neg at h
      have hne : ca ≠ x.className := by
        rw [hx]
        exact fun hcontra => h.1 hcontra.symm
      rw [List.cons_append, show addToGroups ((ca, ga) :: (rest ++ [(c, g)])) x
          = (ca, ga) :: addToGroups (rest ++ [(c, g)]) x from
        by rw [addToGroups, if_neg hne], ih h.2, List.cons_append]

theorem foldl_addToGroups_last {xs : List Detection} {c : String}
    {acc : List (String × List Detection)} {g : List Detection}
    (hxs : ∀ x ∈ xs, x.className = c) (h : c ∉ acc.map Prod.fst) :
    List.foldl addToGroups (acc ++ [(c, g)]) xs = acc ++ [(c, g ++ xs)] := by
  induction xs generalizing g with
  | nil => simp
  | cons x rest ih =>
      rw [List.foldl_cons,
        addToGroups_last (hxs x (List.mem_cons_self x rest)) h,
        ih (fun y hy => hxs y (List.mem_cons_of_mem x hy)), List.append_assoc]
      rfl

/-- Folding the grouping loop over a concatenation of well-formed,
key-disjoint blocks reproduces exactly those blocks. -/
theorem foldl_addToGroups_flat {gs acc : List (String × List Detection)}
    (hdisj : ∀ k ∈ gs.map Prod.fst, k ∉ acc.map Prod.fst)
    (hwf : GroupsWF gs) :
    List.foldl addToGroups acc (gs.flatMap Prod.snd) = acc ++ gs := by
  induction gs generalizing acc with
  | nil => simp
  | cons p rest ih =>
      obtain ⟨c, B⟩ := p
      rcases hwf with ⟨hnd, hmem⟩
      rw [List.map_cons, List.nodup_cons] at hnd
      have hB := hmem (c, B) (List.mem_cons_self _ _)
      obtain ⟨b, bs, rfl⟩ : ∃ b bs, B = b :: bs := by
        cases B with
        | nil => exact absurd rfl hB.1
        | cons b bs => exact ⟨b, bs, rfl⟩
      have hcacc : c ∉ acc.map Prod.fst :=
        hdisj c (by simp)
      rw [List.flatMap_cons, List.foldl_append, show (c, b :: bs).2 = b :: bs from rfl,
        List.foldl_cons,
        addToGroups_not_mem (by rw [hB.2 b (List.mem_cons_self b bs)]; exact hcacc),
        hB.2 b (List.mem_cons_self b bs),
        foldl_addToGroups_last (fun y hy => hB.2 y (List.mem_cons_of_mem b hy)) hcacc]
      have hdis2 : ∀ k ∈ List.map Prod.fst rest,
          k ∉ List.map Prod.fst (acc ++ [(c, b :: bs)]) := by
        intro k hk hmem2
        rw [List.map_append] at hmem2
        rcases List.mem_append.mp hmem2 with hka | hka
        · exact hdisj k (List.mem_cons_of_mem _ hk) hka
        · have hkc : k = c := by simpa using hka
          exact hnd.1 (hkc ▸ hk)
      have hwfrest : GroupsWF rest :=
        ⟨hnd.2, fun q hq => hmem q (List.mem_cons_of_mem _ hq)⟩
      exact (ih hdis2 hwfrest).trans (List.append_assoc acc [(c, b :: bs)] rest)

/-- Grouping a concatenation of well-formed blocks returns those blocks. -/
theorem groupByClass_flat {gs : List (String × List Detection)} (hwf : GroupsWF gs) :
    groupByClass (gs.flatMap Prod.snd) = gs := by
  rw [groupByClass, foldl_addToGroups_flat (by simp) hwf, List.nil_append]

theorem groupByClass_wf (dets : List Detection) : GroupsWF (groupByClass dets) := by
  have : ∀ (l : List Detection) (acc : List (String × List Detection)),
      GroupsWF acc → GroupsWF (l.foldl addToGroups acc) := by
    intro l
    induction l with
    | nil => intro acc h; exact h
    | cons d rest ih =>
        intro acc h
        exact ih _ (addToGroups_wf h d)
  exact this dets [] ⟨List.nodup_nil, by simp⟩

theorem insertDesc_ne_nil (d : Detection) (l : List Detection) : insertDesc d l ≠ [] := by
  cases l with
  | nil => simp [insertDesc]
  | cons e rest =>
      rw [insertDesc]
      split <;> simp

theorem sortByConfDesc_ne_nil {l : List Detection} (h : l ≠ []) :
    sortByConfDesc l ≠ [] := by
  cases l with
  | nil => exact absurd rfl h
  | cons d rest => exact insertDesc_ne_nil d (sortByConfDesc rest)

theorem nmsKeep_ne_nil (thr : ℚ) {l : List Detection} (h : l ≠ []) :
    nmsKeep thr l ≠ [] := by
  cases l with
  | nil => exact absurd rfl h
  | cons best rest => rw [nmsKeep]; simp

theorem nmsClass_idem (thr : ℚ) (l : List Detection) :
    nmsClass thr (nmsClass thr l) = nmsClass thr l := by
  unfold nmsClass
  rw [sortByConfDesc_sorted_id
    (List.Pairwise.sublist (nmsKeep_sublist thr _) (sortByConfDesc_pairwise l)),
    nmsKeep_idem]

theorem nmsClass_mem_sub {thr : ℚ} {l : List Detection} {d : Detection}
    (h : d ∈ nmsClass thr l) : d ∈ l :=
  mem_sortByConfDesc.mp (List.Sublist.mem h (nmsKeep_sublist thr _))

theorem groupsWF_map_nmsClass {gs : List (String × List Detection)} (h : GroupsWF gs)
    (thr : ℚ) : GroupsWF (gs.map fun p => (p.1, nmsClass thr p.2)) := by
  constructor
  · rw [List.map_map]
    exact h.1
  · intro p hp
    rcases List.mem_map.mp hp with ⟨q, hq, rfl⟩
    refine ⟨nmsKeep_ne_nil thr (sortByConfDesc_ne_nil (h.2 q hq).1), ?_⟩
    intro d hd
    exact (h.2 q hq).2 d (nmsClass_mem_sub hd)

/-- C7: the per-class non-max-suppression pass of
`BaseYoloClient._apply_nms` is idempotent — applied to its own output it
returns that output unchanged. -/
theorem applyNms_idempotent (thr : ℚ) (dets : List Detection) :
    applyNms thr (applyNms thr dets) = applyNms thr dets := by
  by_cases hd : dets.isEmpty
  · simp [applyNms, hd]
  · have hout2 : applyNms thr dets =
        (groupByClass dets).flatMap (fun g => nmsKeep thr (sortByConfDesc g.2)) := by
      rw [applyNms, if_neg hd]
    have hout : (groupByClass dets).flatMap (fun g => nmsKeep thr (sortByConfDesc g.2)) =
        ((groupByClass dets).map fun p => (p.1, nmsClass thr p.2)).flatMap Prod.snd := by
      rw [List.flatMap_map]
      rfl
    rw [hout2]
    by_cases hempty : ((groupByClass dets).flatMap
        (fun g => nmsKeep thr (sortByConfDesc g.2))).isEmpty
    · rw [List.isEmpty_iff] at hempty
      rw [hempty]
      simp [applyNms]
    · rw [applyNms, if_neg hempty]
      have hgs' := groupByClass_flat (groupsWF_map_nmsClass (groupByClass_wf dets) thr)
      conv_lhs => rw [hout, hgs']
      rw [List.flatMap_map]
      congr 1
      funext a
      exact nmsClass_idem thr a.2

/-! ## eye/filter/state_filter.py — IOU tracker and trigger policy (claim C6) -/

/-- C6: with one tracked stationary object and one same-class detection
whose IOU with it exceeds the threshold: a center displacement below
`movement_threshold` (squared comparison; threshold nonnegative) keeps the
identity, leaves `is_moving` false and — within the recheck interval —
emits nothing; a displacement above the threshold flips `is_moving` to
true and emits the wake transition exactly once, as one Stage-2 refine
task and one scene-analysis candidate for that detection. -/
theorem stateFilter_movement_cases
    (s : FilterState) (obj : TrackedObj) (det : Detection) (now : ℚ)
    (htr : s.tracked = [obj])
    (hcls : obj.cls = det.className)
    (hiou : stateFilterIou det.box obj.box > s.iouThreshold)
    (hstill : obj.isMoving = false)
    (hthr : 0 ≤ s.movementThreshold) :
    (((detCenter det.box).1 - obj.center.1) ^ 2 +
        ((detCenter det.box).2 - obj.center.2) ^ 2 < s.movementThreshold ^ 2 →
      now - obj.lastCheck ≤ s.recheckInterval →
      (checkRefinementNeeds s [det] now).1 = [] ∧
      (checkRefinementNeeds s [det] now).2.1 = [] ∧
      ∃ obj', (checkRefinementNeeds s [det] now).2.2.tracked = [obj'] ∧
        obj'.id = obj.id ∧ obj'.isMoving = false) ∧
    (((detCenter det.box).1 - obj.center.1) ^ 2 +
        ((detCenter det.box).2 - obj.center.2) ^ 2 > s.movementThreshold ^ 2 →
      (checkRefinementNeeds s [det] now).1 = [(det, obj.id)] ∧
      (checkRefinementNeeds s [det] now).2.1 = [det] ∧
      ∃ obj', (checkRefinementNeeds s [det] now).2.2.tracked = [obj'] ∧
        obj'.id = obj.id ∧ obj'.isMoving = true) := by
  constructor
  · intro hsmall htime
    have hmove : movedBeyond (detCenter det.box) obj.center s.movementThreshold = false := by
      simp only [movedBeyond, decide_eq_false_iff_not, not_lt]
      exact le_of_lt hsmall
    have hnotrecheck : ¬(now - obj.lastCheck > s.recheckInterval) := not_lt.mpr htime
    simp [checkRefinementNeeds, htr, processDetection, findAndUpdate, hcls, hiou,
      updateMatched, hmove, hstill, hnotrecheck]
  · intro hbig
    have hmove : movedBeyond (detCenter det.box) obj.center s.movementThreshold = true := by
      simp only [movedBeyond, decide_eq_true_eq]
      exact hbig
    simp [checkRefinementNeeds, htr, processDetection, findAndUpdate, hcls, hiou,
      updateMatched, hmove, hstill]


theorem store_empty_noclose (m : MemState) (f : FrameInput) (hf : f.dets = [])
    (h : ¬(m.event.isActive = true ∧ m.event.emptyFrameCounter + 1 ≥ m.lossTolerance)) :
    (store m f false).1.event.isActive = m.event.isActive ∧
    (store m f false).1.event.eventId = m.event.eventId ∧
    (store m f false).1.event.emptyFrameCounter = m.event.emptyFrameCounter + 1 ∧
    (store m f false).1.lossTolerance = m.lossTolerance := by
  simp only [store, Bool.false_eq_true, if_false, updateEventState, hasDetections, hf,
    List.isEmpty_nil, Bool.not_true]
  rw [if_neg (by simpa using h)]
  exact ⟨rfl, rfl, rfl, rfl⟩

theorem store_empty_close (m : MemState) (f : FrameInput) (hf : f.dets = [])
    (hact : m.event.isActive = true)
    (hge : m.event.emptyFrameCounter + 1 ≥ m.lossTolerance) :
    (store m f false).1.event.isActive = false ∧
    (store m f false).1.event.eventId = none ∧
    (store m f false).1.event.maxCounts = [] ∧
    (store m f false).1.event.alertTags = [] ∧
    (store m f false).1.event.emptyFrameCounter = 0 ∧
    (store m f false).1.lossTolerance = m.lossTolerance := by
  simp only [store, Bool.false_eq_true, if_false, updateEventState, hasDetections, hf,
    List.isEmpty_nil, Bool.not_true]
  rw [if_pos (by simpa using ⟨hact, hge⟩)]
  simp only [closeEvent, dbCloseEvent, resetEvent]
  split <;> split <;> exact ⟨rfl, rfl, rfl, rfl, rfl, rfl⟩

theorem runStore_all_empty_keep (frames : List FrameInput) :
    ∀ m : MemState, (∀ f ∈ frames, f.dets = []) →
    m.event.isActive = true →
    m.event.emptyFrameCounter + frames.length < m.lossTolerance →
    (runStore m frames).event.isActive = true ∧
    (runStore m frames).event.eventId = m.event.eventId ∧
    (runStore m frames).event.emptyFrameCounter =
      m.event.emptyFrameCounter + frames.length ∧
    (runStore m frames).lossTolerance = m.lossTolerance := by
  induction frames with
  | nil =>
      intro m _ hact _
      exact ⟨hact, rfl, rfl, rfl⟩
  | cons f rest ih =>
      intro m hall hact hlt
      have hf : f.dets = [] := hall f (List.mem_cons_self f rest)
      have hlt' : m.event.emptyFrameCounter + (rest.length + 1) < m.lossTolerance := by
        simpa [List.length_cons] using hlt
      have hstep := store_empty_noclose m f hf (by
        rintro ⟨-, hge⟩
        omega)
      have hrun : runStore m (f :: rest) = runStore (store m f false).1 rest := rfl
      rw [hrun]
      have hrec := ih (store m f false).1
        (fun g hg => hall g (List.mem_cons_of_mem f hg))
        (hstep.1.trans hact)
        (by rw [hstep.2.2.1, hstep.2.2.2]; omega)
      refine ⟨hrec.1, hrec.2.1.trans hstep.2.1, ?_, hrec.2.2.2.trans hstep.2.2.2⟩
      rw [hrec.2.2.1, hstep.2.2.1]
      simp only [List.length_cons]
      omega

theorem runStore_all_empty_close (frames : List FrameInput) :
    ∀ m : MemState, (∀ f ∈ frames, f.dets = []) →
    m.event.isActive = true →
    m.event.emptyFrameCounter + frames.length = m.lossTolerance →
    frames ≠ [] →
    (runStore m frames).event.isActive = false ∧
    (runStore m frames).event.eventId = none ∧
    (runStore m frames).event.maxCounts = [] ∧
    (runStore m frames).event.alertTags = [] ∧
    (runStore m frames).event.emptyFrameCounter = 0 ∧
    (runStore m frames).lossTolerance = m.lossTolerance := by
  induction frames with
  | nil => intro m _ _ _ hne; exact absurd rfl hne
  | cons f rest ih =>
      intro m hall hact heq hne
      have hf : f.dets = [] := hall f (List.mem_cons_self f rest)
      have hrun : runStore m (f :: rest) = runStore (store m f false).1 rest := rfl
      cases rest with
      | nil =>
          have hge : m.event.emptyFrameCounter + 1 ≥ m.lossTolerance := by
            simp only [List.length_cons, List.length_nil] at heq
            omega
          have hstep := store_empty_close m f hf hact hge
          exact hstep
      | cons g rest' =>
          have hlt : ¬(m.event.isActive = true ∧
              m.event.emptyFrameCounter + 1 ≥ m.lossTolerance) := by
            rintro ⟨-, hge⟩
            simp only [List.length_cons] at heq
            omega
          have hstep := store_empty_noclose m f hf hlt
          rw [hrun]
          have hrec := ih (store m f false).1
            (fun x hx => hall x (List.mem_cons_of_mem f hx))
            (hstep.1.trans hact)
            (by
              rw [hstep.2.2.1, hstep.2.2.2]
              simp only [List.length_cons] at heq ⊢
              omega)
            (by simp)
          exact ⟨hrec.1, hrec.2.1, hrec.2.2.1, hrec.2.2.2.1, hrec.2.2.2.2.1,
            hrec.2.2.2.2.2.trans hstep.2.2.2⟩

theorem store_start_inactive (m : MemState) (f : FrameInput)
    (hdets : f.dets ≠ []) (hina : m.event.isActive = false) :
    (store m f false).1.event.eventId = some (pyInt (f.now * 1000)) ∧
    (store m f false).1.event.isActive = true ∧
    (store m f false).1.event.maxCounts = classCounts f.dets ∧
    (store m f false).1.event.startTime = f.ts ∧
    (store m f false).1.event.emptyFrameCounter = 0 ∧
    (store m f false).1.event.alertTags =
      (if isVisualAbnormal m.baseAlertClasses f.dets then addTag f.alertTags "visual"
       else f.alertTags) ∧
    (store m f false).1.dbConnected = m.dbConnected ∧
    (store m f false).1.maxEventDuration = m.maxEventDuration ∧
    (store m f false).1.lossTolerance = m.lossTolerance ∧
    (m.dbConnected = true →
      (store m f false).1.dbRows = m.dbRows ++
        [{ id := m.dbNextId, startTime := f.ts, endTime := f.ts, status := "ongoing",
           targetData := classCounts f.dets,
           isAbnormal := isVisualAbnormal m.baseAlertClasses f.dets,
           alertTags := (if isVisualAbnormal m.baseAlertClasses f.dets
             then addTag f.alertTags "visual" else f.alertTags) }]) ∧
    (m.dbConnected = false → (store m f false).1.dbRows = m.dbRows) := by
  obtain ⟨d, ds, hcons⟩ := List.exists_cons_of_ne_nil hdets
  simp only [store, Bool.false_eq_true, if_false, updateEventState, hasDetections, hcons,
    List.isEmpty_cons, Bool.not_false, if_true, hina, false_and, Bool.not_false,
    startEvent, dbStartEvent]
  rw [← hcons]
  by_cases hdb : m.dbConnected
  · rw [if_pos hdb]
    refine ⟨rfl, rfl, rfl, rfl, rfl, rfl, rfl, rfl, rfl, fun _ => rfl, fun hc => ?_⟩
    rw [hdb] at hc
    exact absurd hc (by simp)
  · rw [if_neg hdb]
    refine ⟨rfl, rfl, rfl, rfl, rfl, rfl, rfl, rfl, rfl, fun hc => ?_, fun _ => rfl⟩
    exact absurd hc hdb

/-- C2: starting from an active event with empty-frame counter 0 and
identity `i`: fewer than `loss_tolerance` consecutive empty frames keep
the event active with its id unchanged; exactly `loss_tolerance` empty
frames close it and reset the in-memory event state (id, counts, tags,
counter, active flag); a subsequent frame with detections opens a new
event whose identity (taken from a later clock value) differs from `i`. -/
theorem perceptionMemory_event_lifecycle
    (m : MemState) (i : ℤ)
    (hact : m.event.isActive = true)
    (hcnt : m.event.emptyFrameCounter = 0)
    (hid : m.event.eventId = some i)
    (htol : 0 < m.lossTolerance) :
    (∀ frames : List FrameInput, (∀ f ∈ frames, f.dets = []) →
        frames.length < m.lossTolerance →
        (runStore m frames).event.isActive = true ∧
        (runStore m frames).event.eventId = some i) ∧
    (∀ frames : List FrameInput, (∀ f ∈ frames, f.dets = []) →
        frames.length = m.lossTolerance →
        (runStore m frames).event.isActive = false ∧
        (runStore m frames).event.eventId = none ∧
        (runStore m frames).event.maxCounts = [] ∧
        (runStore m frames).event.alertTags = [] ∧
        (runStore m frames).event.emptyFrameCounter = 0) ∧
    (∀ (frames : List FrameInput) (g : FrameInput), (∀ f ∈ frames, f.dets = []) →
        frames.length = m.lossTolerance → g.dets ≠ [] →
        pyInt (g.now * 1000) ≠ i →
        (store (runStore m frames) g false).1.event.isActive = true ∧
        (store (runStore m frames) g false).1.event.eventId =
          some (pyInt (g.now * 1000)) ∧
        (store (runStore m frames) g false).1.event.eventId ≠ some i) := by
  have hclose : ∀ frames : List FrameInput, (∀ f ∈ frames, f.dets = []) →
      frames.length = m.lossTolerance →
      (runStore m frames).event.isActive = false ∧
      (runStore m frames).event.eventId = none ∧
      (runStore m frames).event.maxCounts = [] ∧
      (runStore m frames).event.alertTags = [] ∧
      (runStore m frames).event.emptyFrameCounter = 0 := by
    intro frames hall heq
    have hne : frames ≠ [] := by
      intro hnil
      rw [hnil] at heq
      simp only [List.length_nil] at heq
      omega
    have h := runStore_all_empty_close frames m hall hact (by omega) hne
    exact ⟨h.1, h.2.1, h.2.2.1, h.2.2.2.1, h.2.2.2.2.1⟩
  refine ⟨?_, hclose, ?_⟩
  · intro frames hall hlt
    have h := runStore_all_empty_keep frames m hall hact (by omega)
    exact ⟨h.1, h.2.1.trans hid⟩
  · intro frames g hall heq hg hne
    have hclosed := hclose frames hall heq
    have hstart := store_start_inactive (runStore m frames) g hg hclosed.1
    refine ⟨hstart.2.1, hstart.1, ?_⟩
    rw [hstart.1]
    simp only [ne_eq, Option.some.injEq]
    exact hne

theorem perceptionMemory_event_lifecycle_witness :
    (memC2.event.isActive = true ∧ memC2.event.emptyFrameCounter = 0 ∧
      memC2.event.eventId = some 5 ∧ 0 < memC2.lossTolerance) ∧
    ((runStore memC2 [emptyFrameAt 101]).event.isActive = true ∧
      (runStore memC2 [emptyFrameAt 101]).event.eventId = some 5) ∧
    ((runStore memC2 [emptyFrameAt 101, emptyFrameAt 102]).event.isActive = false ∧
      (runStore memC2 [emptyFrameAt 101, emptyFrameAt 102]).event.eventId = none ∧
      (runStore memC2 [emptyFrameAt 101, emptyFrameAt 102]).event.maxCounts = [] ∧
      (runStore memC2 [emptyFrameAt 101, emptyFrameAt 102]).event.alertTags = [] ∧
      (runStore memC2 [emptyFrameAt 101,
        emptyFrameAt 102]).event.emptyFrameCounter = 0) ∧
    ((store (runStore memC2 [emptyFrameAt 101, emptyFrameAt 102])
        (personFrameAt 103) false).1.event.isActive = true ∧
      (store (runStore memC2 [emptyFrameAt 101, emptyFrameAt 102])
        (personFrameAt 103) false).1.event.eventId =
          some (pyInt ((personFrameAt 103).now * 1000)) ∧
      (store (runStore memC2 [emptyFrameAt 101, emptyFrameAt 102])
        (personFrameAt 103) false).1.event.eventId ≠ some 5) :=
  ⟨⟨by decide, by decide, by decide, by decide⟩,
    (perceptionMemory_event_lifecycle memC2 5 (by decide) (by decide) (by decide)
      (by decide)).1 [emptyFrameAt 101] (by decide) (by decide),
    (perceptionMemory_event_lifecycle memC2 5 (by decide) (by decide) (by decide)
      (by decide)).2.1 [emptyFrameAt 101, emptyFrameAt 102] (by decide) (by decide),
    (perceptionMemory_event_lifecycle memC2 5 (by decide) (by decide) (by decide)
      (by decide)).2.2 [emptyFrameAt 101, emptyFrameAt 102] (personFrameAt 103)
      (by decide) (by decide) (by decide)
      (by norm_num [pyInt, personFrameAt])⟩

theorem store_cfg (m : MemState) (f : FrameInput) :
    (store m f false).1.maxEventDuration = m.maxEventDuration ∧
    (store m f false).1.dbConnected = m.dbConnected ∧
    (store m f false).1.lossTolerance = m.lossTolerance ∧
    (store m f false).1.baseAlertClasses = m.baseAlertClasses := by
  simp only [store, Bool.false_eq_true, if_false, updateEventState, closeEvent,
    startEvent, dbStartEvent, dbCloseEvent, updateEventTs, resetEvent]
  repeat' split
  all_goals exact ⟨rfl, rfl, rfl, rfl⟩

theorem store_det_update (m : MemState) (f : FrameInput)
    (hact : m.event.isActive = true) (hdets : f.dets ≠ [])
    (hdur : ¬(f.now - m.event.startTime > m.maxEventDuration)) :
    (store m f false).1.event.isActive = true ∧
    (store m f false).1.event.startTime = m.event.startTime ∧
    (store m f false).1.dbRows = m.dbRows := by
  simp [store, updateEventState, hasDetections, List.isEmpty_iff, updateEventTs,
    hact, hdur, hdets]

theorem store_rollover (m : MemState) (f : FrameInput)
    (hact : m.event.isActive = true) (hdets : f.dets ≠ [])
    (hdur : f.now - m.event.startTime > m.maxEventDuration) :
    (store m f false).1.event.isActive = true ∧
    (store m f false).1.event.eventId = some (pyInt (f.now * 1000)) ∧
    (store m f false).1.event.startTime = f.ts ∧
    (store m f false).1.event.maxCounts = classCounts f.dets ∧
    (store m f false).1.event.alertTags =
      (if isVisualAbnormal m.baseAlertClasses f.dets then addTag f.alertTags "visual"
       else f.alertTags) ∧
    (m.dbConnected = true →
      (store m f false).1.dbRows.length = m.dbRows.length + 1) ∧
    (m.dbConnected = false → (store m f false).1.dbRows = m.dbRows) := by
  by_cases hdb : m.dbConnected
  · simp [store, updateEventState, hasDetections, List.isEmpty_iff, closeEvent,
      dbCloseEvent, resetEvent, startEvent, dbStartEvent, hact, hdur, hdb, hdets]
  · simp [store, updateEventState, hasDetections, List.isEmpty_iff, closeEvent,
      dbCloseEvent, resetEvent, startEvent, dbStartEvent, hact, hdur, hdb, hdets]

theorem roll_keep1 {t0 D : ℚ} {m : MemState} {f : FrameInput}
    (hcfg : RollCfg D m) (h1 : RollCase1 t0 m) (hq : QualFrame t0 D f)
    (hle : f.now ≤ t0 + D) : RollCase1 t0 (store m f false).1 := by
  have hdur : ¬(f.now - m.event.startTime > m.maxEventDuration) := by
    rw [h1.2.1, hcfg.1]
    push_neg
    linarith
  have h := store_det_update m f h1.1 hq.1 hdur
  exact ⟨h.1, h.2.1.trans h1.2.1, by rw [h.2.2]; exact h1.2.2⟩

theorem roll_1to2 {t0 D : ℚ} {m : MemState} {f : FrameInput}
    (hcfg : RollCfg D m) (h1 : RollCase1 t0 m) (hq : QualFrame t0 D f)
    (hgt : t0 + D < f.now) : RollCase2 t0 D (store m f false).1 := by
  have hdur : f.now - m.event.startTime > m.maxEventDuration := by
    rw [h1.2.1, hcfg.1]
    linarith
  have h := store_rollover m f h1.1 hq.1 hdur
  refine ⟨h.1, ?_, ?_⟩
  · rw [h.2.2.1, hq.2.1]
    exact hgt
  · rw [h.2.2.2.2.2.1 hcfg.2, h1.2.2]

theorem roll_keep2 {t0 D : ℚ} {m : MemState} {f : FrameInput}
    (hcfg : RollCfg D m) (h2 : RollCase2 t0 D m) (hq : QualFrame t0 D f) :
    RollCase2 t0 D (store m f false).1 := by
  have hdur : ¬(f.now - m.event.startTime > m.maxEventDuration) := by
    rw [hcfg.1]
    push_neg
    have := h2.2.1
    have := hq.2.2.2
    linarith
  have h := store_det_update m f h2.1 hq.1 hdur
  exact ⟨h.1, by rw [h.2.1]; exact h2.2.1, by rw [h.2.2]; exact h2.2.2⟩

theorem roll_cfg_preserved {D : ℚ} {m : MemState} (f : FrameInput)
    (hcfg : RollCfg D m) : RollCfg D (store m f false).1 :=
  ⟨(store_cfg m f).1.trans hcfg.1, (store_cfg m f).2.1.trans hcfg.2⟩

theorem roll_run {t0 D : ℚ} (frames : List FrameInput) :
    ∀ m : MemState, RollCfg D m →
    (∀ f ∈ frames, QualFrame t0 D f) →
    ((RollCase1 t0 m → (∃ f ∈ frames, t0 + D < f.now) →
        (runStore m frames).dbRows.length = 2) ∧
      (RollCase2 t0 D m → (runStore m frames).dbRows.length = 2)) := by
  induction frames with
  | nil =>
      intro m _ _
      exact ⟨fun _ hex => absurd hex (by simp), fun h2 => h2.2.2⟩
  | cons f rest ih =>
      intro m hcfg hq
      have hqf : QualFrame t0 D f := hq f (List.mem_cons_self f rest)
      have hqrest : ∀ g ∈ rest, QualFrame t0 D g :=
        fun g hg => hq g (List.mem_cons_of_mem f hg)
      have hcfg' := roll_cfg_preserved f hcfg
      have hrun : runStore m (f :: rest) = runStore (store m f false).1 rest := rfl
      rw [hrun]
      have ihm := ih (store m f false).1 hcfg' hqrest
      constructor
      · intro h1 hex
        by_cases hgt : t0 + D < f.now
        · exact ihm.2 (roll_1to2 hcfg h1 hqf hgt)
        · have hrest : ∃ g ∈ rest, t0 + D < g.now := by
            rcases hex with ⟨g, hg, hgt'⟩
            rcases List.mem_cons.mp hg with rfl | hg'
            · exact absurd hgt' hgt
            · exact ⟨g, hg', hgt'⟩
          exact ihm.1 (roll_keep1 hcfg h1 hqf (not_lt.mp hgt)) hrest
      · intro h2
        exact ihm.2 (roll_keep2 hcfg h2 hqf)

/-- C3: (i) a detection frame arriving while the active event's duration
exceeds `max_event_duration` closes the event and immediately opens a new
one initialized from the frame's class counts and alert tags, started at
the frame's timestamp, with identity `int(now*1000)` — fresh whenever the
millisecond clock moved on; (ii) over continuous detections spanning
`2 × max_event_duration` seconds from an idle state (database connected),
exactly 2 event rows are created in total. -/
theorem perceptionMemory_max_duration_rollover :
    (∀ (m : MemState) (f : FrameInput) (i : ℤ),
      m.event.isActive = true → f.dets ≠ [] → m.event.eventId = some i →
      f.now - m.event.startTime > m.maxEventDuration →
      pyInt (f.now * 1000) ≠ i →
      (store m f false).1.event.isActive = true ∧
      (store m f false).1.event.eventId = some (pyInt (f.now * 1000)) ∧
      (store m f false).1.event.eventId ≠ some i ∧
      (store m f false).1.event.maxCounts = classCounts f.dets ∧
      (store m f false).1.event.alertTags =
        (if isVisualAbnormal m.baseAlertClasses f.dets then addTag f.alertTags "visual"
         else f.alertTags) ∧
      (store m f false).1.event.startTime = f.ts) ∧
    (∀ (m : MemState) (f0 : FrameInput) (rest : List FrameInput),
      0 < m.maxEventDuration → m.dbConnected = true → m.dbRows = [] →
      m.event.isActive = false →
      (∀ f ∈ f0 :: rest, QualFrame f0.now m.maxEventDuration f) →
      (∃ f ∈ f0 :: rest, f0.now + m.maxEventDuration < f.now) →
      (runStore m (f0 :: rest)).dbRows.length = 2) := by
  constructor
  · intro m f i hact hdets hid hdur hfresh
    have h := store_rollover m f hact hdets hdur
    refine ⟨h.1, h.2.1, ?_, h.2.2.2.1, h.2.2.2.2.1, h.2.2.1⟩
    rw [h.2.1]
    simp only [ne_eq, Option.some.injEq]
    exact hfresh
  · intro m f0 rest hD hdb hrows hina hq hex
    have hq0 := hq f0 (List.mem_cons_self f0 rest)
    have hstart := store_start_inactive m f0 hq0.1 hina
    have hcfg' : RollCfg m.maxEventDuration (store m f0 false).1 :=
      roll_cfg_preserved f0 ⟨rfl, hdb⟩
    have h1 : RollCase1 f0.now (store m f0 false).1 := by
      refine ⟨hstart.2.1, hstart.2.2.2.1.trans hq0.2.1, ?_⟩
      rw [hstart.2.2.2.2.2.2.2.2.2.1 hdb, hrows]
      rfl
    have hrun : runStore m (f0 :: rest) = runStore (store m f0 false).1 rest := rfl
    rw [hrun]
    have hrest : ∃ g ∈ rest, f0.now + m.maxEventDuration < g.now := by
      rcases hex with ⟨g, hg, hgt⟩
      rcases List.mem_cons.mp hg with rfl | hg'
      · exact absurd hgt (by linarith)
      · exact ⟨g, hg', hgt⟩
    exact (roll_run rest (store m f0 false).1 hcfg'
      (fun g hg => hq g (List.mem_cons_of_mem f0 hg))).1 h1 hrest

theorem perceptionMemory_max_duration_rollover_witness :
    (memC3a.event.isActive = true ∧ (personFrameAt 301).dets ≠ [] ∧
      memC3a.event.eventId = some 7 ∧
      (personFrameAt 301).now - memC3a.event.startTime > memC3a.maxEventDuration ∧
      pyInt ((personFrameAt 301).now * 1000) ≠ 7 ∧
      ((store memC3a (personFrameAt 301) false).1.event.isActive = true ∧
        (store memC3a (personFrameAt 301) false).1.event.eventId =
          some (pyInt ((personFrameAt 301).now * 1000)) ∧
        (store memC3a (personFrameAt 301) false).1.event.eventId ≠ some 7 ∧
        (store memC3a (personFrameAt 301) false).1.event.maxCounts =
          classCounts (personFrameAt 301).dets ∧
        (store memC3a (personFrameAt 301) false).1.event.alertTags =
          (if isVisualAbnormal memC3a.baseAlertClasses (personFrameAt 301).dets
           then addTag (personFrameAt 301).alertTags "visual"
           else (personFrameAt 301).alertTags) ∧
        (store memC3a (personFrameAt 301) false).1.event.startTime =
          (personFrameAt 301).ts)) ∧
    ((runStore memC3b [personFrameAt 0, personFrameAt 301]).dbRows.length = 2) :=
  ⟨⟨by decide, by decide, by decide, by norm_num [personFrameAt, memC3a, eventC3],
    by norm_num [pyInt, personFrameAt],
    (perceptionMemory_max_duration_rollover).1 memC3a (personFrameAt 301) 7
      (by decide) (by decide) (by decide)
      (by norm_num [personFrameAt, memC3a, eventC3])
      (by norm_num [pyInt, personFrameAt])⟩,
    (perceptionMemory_max_duration_rollover).2 memC3b (personFrameAt 0) [personFrameAt 301]
      (by norm_num [memC3b]) (by decide) (by decide) (by decide)
      (by norm_num [QualFrame, personFrameAt, memC3b])
      (by norm_num [personFrameAt, memC3b])⟩

/-- C4 counterexample: from the idle state `memC3b` (database connected,
next row id 1), a detection frame at clock 10 records the locally
fabricated `int(time.time()*1000) = 10000` as the event id, while the
synchronously persisted row is generated with id 1 — the in-memory /
downstream identity is not the persistence layer's generated id. -/
theorem startEvent_discards_db_id_counterexample :
    (store memC3b (personFrameAt 10) false).1.event.eventId = some 10000 ∧
    (store memC3b (personFrameAt 10) false).1.dbRows.map DbEventRow.id = [1] ∧
    (store memC3b (personFrameAt 10) false).1.event.eventId ≠ some ((1 : ℤ)) := by
  have h := store_start_inactive memC3b (personFrameAt 10) (by decide) (by decide)
  have h1 : (store memC3b (personFrameAt 10) false).1.event.eventId = some 10000 := by
    rw [h.1]
    norm_num [pyInt, personFrameAt]
  refine ⟨h1, ?_, ?_⟩
  · rw [h.2.2.2.2.2.2.2.2.2.1 (by decide)]
    rfl
  · rw [h1]
    decide

/-- C4 (amended): on the idle→active transition the new event row is
inserted synchronously (awaited before the transition returns) when a
database manager is connected — and not at all otherwise — but the event
identity recorded in the in-memory state is the locally fabricated
`int(time.time()*1000)`; the id generated by the persisted write
(`lastrowid = dbNextId`) is discarded by `_start_event`. -/
theorem startEvent_persists_but_fabricates_id (m : MemState) (f : FrameInput)
    (hina : m.event.isActive = false) (hdets : f.dets ≠ []) :
    (store m f false).1.event.eventId = some (pyInt (f.now * 1000)) ∧
    (store m f false).1.event.isActive = true ∧
    (m.dbConnected = true → ∃ row : DbEventRow,
      (store m f false).1.dbRows = m.dbRows ++ [row] ∧ row.id = m.dbNextId) ∧
    (m.dbConnected = false → (store m f false).1.dbRows = m.dbRows) := by
  have h := store_start_inactive m f hdets hina
  exact ⟨h.1, h.2.1,
    fun hdb => ⟨_, h.2.2.2.2.2.2.2.2.2.1 hdb, rfl⟩,
    h.2.2.2.2.2.2.2.2.2.2⟩

theorem startEvent_persists_but_fabricates_id_witness :
    memC3b.event.isActive = false ∧ (personFrameAt 10).dets ≠ [] ∧
    ((store memC3b (personFrameAt 10) false).1.event.eventId =
        some (pyInt ((personFrameAt 10).now * 1000)) ∧
      (store memC3b (personFrameAt 10) false).1.event.isActive = true ∧
      (memC3b.dbConnected = true → ∃ row : DbEventRow,
        (store memC3b (personFrameAt 10) false).1.dbRows =
          memC3b.dbRows ++ [row] ∧ row.id = memC3b.dbNextId) ∧
      (memC3b.dbConnected = false →
        (store memC3b (personFrameAt 10) false).1.dbRows = memC3b.dbRows)) :=
  ⟨by decide, by decide,
    startEvent_persists_but_fabricates_id memC3b (personFrameAt 10)
      (by decide) (by decide)⟩

theorem stateFilter_movement_cases_witness :
    (filterS0.tracked = [objT] ∧ objT.cls = detSmall.className ∧
      stateFilterIou detSmall.box objT.box > filterS0.iouThreshold ∧
      objT.isMoving = false ∧ 0 ≤ filterS0.movementThreshold ∧
      (((detCenter detSmall.box).1 - objT.center.1) ^ 2 +
          ((detCenter detSmall.box).2 - objT.center.2) ^ 2 <
        filterS0.movementThreshold ^ 2) ∧
      (1 : ℚ) - objT.lastCheck ≤ filterS0.recheckInterval ∧
      ((checkRefinementNeeds filterS0 [detSmall] 1).1 = [] ∧
        (checkRefinementNeeds filterS0 [detSmall] 1).2.1 = [] ∧
        ∃ obj', (checkRefinementNeeds filterS0 [detSmall] 1).2.2.tracked = [obj'] ∧
          obj'.id = objT.id ∧ obj'.isMoving = false)) ∧
    (stateFilterIou detBig.box objT.box > filterS0.iouThreshold ∧
      (((detCenter detBig.box).1 - objT.center.1) ^ 2 +
          ((detCenter detBig.box).2 - objT.center.2) ^ 2 >
        filterS0.movementThreshold ^ 2) ∧
      ((checkRefinementNeeds filterS0 [detBig] 1).1 = [(detBig, objT.id)] ∧
        (checkRefinementNeeds filterS0 [detBig] 1).2.1 = [detBig] ∧
        ∃ obj', (checkRefinementNeeds filterS0 [detBig] 1).2.2.tracked = [obj'] ∧
          obj'.id = objT.id ∧ obj'.isMoving = true)) := by
  have hiouS : stateFilterIou detSmall.box objT.box > filterS0.iouThreshold := by
    norm_num [stateFilterIou, detSmall, objT, filterS0]
  have hiouB : stateFilterIou detBig.box objT.box > filterS0.iouThreshold := by
    norm_num [stateFilterIou, detBig, objT, filterS0]
  have hdistS : (((detCenter detSmall.box).1 - objT.center.1) ^ 2 +
      ((detCenter detSmall.box).2 - objT.center.2) ^ 2 <
      filterS0.movementThreshold ^ 2) := by
    norm_num [detCenter, detSmall, objT, filterS0]
  have hdistB : (((detCenter detBig.box).1 - objT.center.1) ^ 2 +
      ((detCenter detBig.box).2 - objT.center.2) ^ 2 >
      filterS0.movementThreshold ^ 2) := by
    norm_num [detCenter, detBig, objT, filterS0]
  have htime : (1 : ℚ) - objT.lastCheck ≤ filterS0.recheckInterval := by
    norm_num [objT, filterS0]
  refine ⟨⟨rfl, rfl, hiouS, rfl, by norm_num [filterS0], hdistS, htime, ?_⟩,
    hiouB, hdistB, ?_⟩
  · exact (stateFilter_movement_cases filterS0 objT detSmall 1 rfl rfl hiouS rfl
      (by norm_num [filterS0])).1 hdistS htime
  · exact (stateFilter_movement_cases filterS0 objT detBig 1 rfl rfl hiouB rfl
      (by norm_num [filterS0])).2 hdistB

theorem updateEventState_history (m : MemState) (f : FrameInput) :
    (updateEventState m f).1.history = m.history := by
  simp only [updateEventState, closeEvent, startEvent, dbStartEvent, dbCloseEvent,
    updateEventTs, resetEvent]
  repeat' split
  all_goals rfl

/-- C10: `PerceptionMemory.store` never lets an exception escape: it is a
total function into a boolean — `True` exactly when the event-state
update and the history append run to completion, `False` when a runtime
error strikes inside them (in which case, the error point preceding all
mutation, the state is left unchanged); on the success path the history
grows by one entry, is trimmed to the last 50 once it exceeds 100
entries, and so stays bounded by 100. -/
theorem store_returns_bool_never_raises (m : MemState) (f : FrameInput) (err : Bool) :
    ((store m f err).2 = true ↔ err = false) ∧
    (err = true → (store m f err).1 = m) ∧
    (err = false →
      ∃ entry : HistEntry,
        (store m f err).1.history =
          (if m.history.length + 1 > 100
           then (m.history ++ [entry]).drop (m.history.length + 1 - 50)
           else m.history ++ [entry])) ∧
    (err = false → m.history.length ≤ 100 →
      (store m f err).1.history.length ≤ 100) := by
  cases err with
  | true =>
      refine ⟨by simp [store], fun _ => rfl, fun h => absurd h (by simp), fun h => absurd h (by simp)⟩
  | false =>
      have hh : (updateEventState m f).1.history = m.history := updateEventState_history m f
      have hform : ∃ entry : HistEntry,
          (store m f false).1.history =
            (if m.history.length + 1 > 100
             then (m.history ++ [entry]).drop (m.history.length + 1 - 50)
             else m.history ++ [entry]) := by
        refine ⟨⟨f.ts,
          (match (updateEventState m f).2 with
            | some v => some v
            | none => f.resEventId),
          classCounts f.dets, f.alertTags⟩, ?_⟩
        simp only [store, Bool.false_eq_true, if_false, hh, List.length_append,
          List.length_singleton]
      refine ⟨by simp [store], fun h => absurd h (by simp), fun _ => hform, fun _ hle => ?_⟩
      rcases hform with ⟨entry, hentry⟩
      rw [hentry]
      split
      · rw [List.length_drop]
        simp only [List.length_append, List.length_singleton]
        omega
      · simp only [List.length_append, List.length_singleton]
        omega

theorem store_returns_bool_never_raises_witness :
    ((store memC2 (personFrameAt 1) true).2 = false ∧
      (store memC2 (personFrameAt 1) true).1 = memC2) ∧
    ((store memC2 (personFrameAt 1) false).2 = true) ∧
    (∃ entry : HistEntry,
      (store memC2 (personFrameAt 1) false).1.history =
        (if memC2.history.length + 1 > 100
         then (memC2.history ++ [entry]).drop (memC2.history.length + 1 - 50)
         else memC2.history ++ [entry])) ∧
    (memC2.history.length ≤ 100 ∧
      (store memC2 (personFrameAt 1) false).1.history.length ≤ 100) := by
  have ht := store_returns_bool_never_raises memC2 (personFrameAt 1) true
  have hf := store_returns_bool_never_raises memC2 (personFrameAt 1) false
  refine ⟨⟨?_, ht.2.1 rfl⟩, hf.1.mpr rfl, hf.2.2.1 rfl, by decide, hf.2.2.2 rfl (by decide)⟩
  have := ht.1
  simp only [Bool.true_eq_false, iff_false] at this
  exact Bool.not_eq_true _ ▸ (Bool.eq_false_iff.mpr (fun hc => this (by rw [hc])))

/-- C9 counterexample: three calls at clocks 10, 10.1 and 10.21 under the
default `DETECT_FPS = 5` (interval 0.2s).  The second call is gated and
does not move `last_send_time`, so the third call — made only 0.11s
after the second — passes the gate, runs inference and returns a
nonempty detection list, contradicting "any two calls less than
1/DETECT_FPS apart have the second return empty without inference". -/
theorem detectAsync_rate_gate_counterexample :
    ((1021/100 : ℚ) - 101/10 < gateS0.interval) ∧
    ((detectAsync (detectAsync (detectAsync gateS0 10 (0 : ℕ) [personDet] 1 false).1
        (101/10) (0 : ℕ) [personDet] 1 false).1
        (1021/100) (0 : ℕ) [personDet] 1 false).2.2.2 = true) ∧
    ((detectAsync (detectAsync (detectAsync gateS0 10 (0 : ℕ) [personDet] 1 false).1
        (101/10) (0 : ℕ) [personDet] 1 false).1
        (1021/100) (0 : ℕ) [personDet] 1 false).2.1 = [personDet]) := by
  refine ⟨by norm_num [gateS0, intervalOfFps], ?_, ?_⟩ <;>
    norm_num [detectAsync, gateS0, intervalOfFps, applyNms, groupByClass, addToGroups,
      sortByConfDesc, insertDesc, nmsKeep]

/-- C9 (amended): the gate compares the call clock against the time of
the last gate-passing call (`last_send_time`), not the previous call: a
call arriving less than `interval = 1/max(1, DETECT_FPS)` after a
gate-passing call returns an empty detection list and the unmodified
input frame without invoking `_detect` — in particular the per-crop
Stage-2 calls (and a Stage-1 call) issued within `interval` of a
gate-passing inference silently return no detections. -/
theorem detectAsync_gate_after_pass {α : Type} (s : GateState) (t1 t2 : ℚ) (fr1 fr2 : α)
    (raw1 raw2 : List Detection) (p1 p2 : α) (th1 th2 : Bool)
    (hpass : ¬(t1 - s.lastSendTime < s.interval))
    (hgap : t2 - t1 < s.interval) :
    detectAsync (detectAsync s t1 fr1 raw1 p1 th1).1 t2 fr2 raw2 p2 th2 =
      ((detectAsync s t1 fr1 raw1 p1 th1).1, [], fr2, false) := by
  have h1 : (detectAsync s t1 fr1 raw1 p1 th1).1 = { s with lastSendTime := t1 } := by
    rw [detectAsync, if_neg hpass]
    cases th1 <;> simp
  rw [h1]
  simp [detectAsync, hgap]

theorem detectAsync_gate_after_pass_witness :
    (¬((10 : ℚ) - gateS0.lastSendTime < gateS0.interval)) ∧
    ((101/10 : ℚ) - 10 < gateS0.interval) ∧
    detectAsync (detectAsync gateS0 10 (0 : ℕ) [personDet] 1 false).1
        (101/10) (0 : ℕ) [personDet] 1 false =
      ((detectAsync gateS0 10 (0 : ℕ) [personDet] 1 false).1, [], (0 : ℕ), false) :=
  ⟨by norm_num [gateS0, intervalOfFps], by norm_num [gateS0, intervalOfFps],
    detectAsync_gate_after_pass gateS0 10 (101/10) 0 0 [personDet] [personDet] 1 1
      false false (by norm_num [gateS0, intervalOfFps])
      (by norm_num [gateS0, intervalOfFps])⟩

/-- C8 counterexample: a response whose cleaned text parses as the JSON
number `42` (not an object) does not degrade to a best-effort result
with the truncated raw text — `res.get` raises `AttributeError`, the
generic handler returns `None`. -/
theorem parseResponse_nonobject_counterexample :
    parseResponse "42" (Except.ok (JValue.num 42)) = none ∧
    parseResponse "42" (Except.ok (JValue.num 42)) ≠
      some { description := JValue.str ("42".take 100), isAbnormal := false,
             reason := JValue.str "", rawResponse := "42" } := by
  refine ⟨rfl, ?_⟩
  intro h
  rw [show parseResponse "42" (Except.ok (JValue.num 42)) = none from rfl] at h
  exact Option.noConfusion h

/-- C8 (amended): a response parsing to a JSON object of the exact shape
`{"description": string, "is_abnormal": bool, "reason": string}` yields
an `AnalysisResult` carrying those three fields; a JSON decode error
degrades to the best-effort result (raw text truncated to 100
characters, abnormal `False`); but a response parsing to a non-object
JSON value returns `None` (via the generic exception handler), not the
degraded result, and an object of a different shape is not treated as a
failure — missing keys get defaults and `is_abnormal` is coerced with
Python truthiness.  No input propagates an exception (the function is
total). -/
theorem parseResponse_shapes (raw d r : String) (b : Bool) (v : JValue)
    (hne : raw ≠ "") (hnotobj : ∀ fields, v ≠ JValue.obj fields) :
    parseResponse raw (.ok (.obj [("description", .str d), ("is_abnormal", .bool b),
        ("reason", .str r)])) =
      some { description := .str d, isAbnormal := b, reason := .str r,
             rawResponse := raw } ∧
    parseResponse raw (.error ()) =
      some { description := .str (raw.take 100), isAbnormal := false,
             reason := .str "", rawResponse := raw } ∧
    parseResponse raw (.ok v) = none := by
  refine ⟨?_, ?_, ?_⟩
  · simp [parseResponse, List.lookup, pythonBool]
  · simp [parseResponse, hne]
  · cases v with
    | obj fields => exact absurd rfl (hnotobj fields)
    | null => rfl
    | bool _ => rfl
    | num _ => rfl
    | str _ => rfl
    | arr _ => rfl

theorem parseResponse_shapes_witness :
    ("ok" : String) ≠ "" ∧ (∀ fields, JValue.num 42 ≠ JValue.obj fields) ∧
    (parseResponse "ok" (.ok (.obj [("description", .str "d"),
        ("is_abnormal", .bool true), ("reason", .str "r")])) =
      some { description := .str "d", isAbnormal := true, reason := .str "r",
             rawResponse := "ok" } ∧
    parseResponse "ok" (.error ()) =
      some { description := .str ("ok".take 100), isAbnormal := false,
             reason := .str "", rawResponse := "ok" } ∧
    parseResponse "ok" (.ok (JValue.num 42)) = none) :=
  ⟨by decide, fun fields h => JValue.noConfusion h,
    parseResponse_shapes "ok" "d" "r" true (JValue.num 42) (by decide)
      (fun fields h => JValue.noConfusion h)⟩

theorem lookup_cacheSet_self {E : Type} (c : List (Nat × E × ℚ)) (tid : Nat)
    (v : E × ℚ) : (cacheSet c tid v).lookup tid = some v := by
  induction c with
  | nil => simp [cacheSet, List.lookup]
  | cons p rest ih =>
      obtain ⟨k, w⟩ := p
      by_cases hk : k = tid
      · subst hk
        simp [cacheSet, List.lookup]
      · rw [cacheSet, if_neg hk]
        have hbeq : (tid == k) = false := by
          simp [Ne.symm hk]
        simp [List.lookup, hbeq, ih]

theorem foldl_dedup_drop_all {E : Type} (sim : E → E → ℚ) (minI : ℚ) (tid : Nat)
    (e : E) (fs : List (RefFeature E)) :
    ∀ (s : DedupState E) (n : Nat) (t : ℚ),
    s.cache.lookup tid = some (e, t) →
    (∀ f ∈ fs, f.trackId = tid ∧ ¬(sim e f.emb < simThreshold)) →
    fs.foldl (dedupStep sim minI) (s, n) = (s, n) := by
  induction fs with
  | nil => intro s n t _ _; rfl
  | cons f rest ih =>
      intro s n t hlook hall
      have hf := hall f (List.mem_cons_self f rest)
      have hstep : dedupStep sim minI (s, n) f = (s, n) := by
        simp only [dedupStep, processFeature, hf.1, hlook]
        rw [if_neg (by tauto)]
        simp
      rw [List.foldl_cons, hstep]
      exact ih s n t hlook (fun g hg => hall g (List.mem_cons_of_mem f hg))

theorem foldl_dedup_keep_all {E : Type} (sim : E → E → ℚ) (minI : ℚ) (tid : Nat)
    (hsim : ∀ a b, sim a b < simThreshold) (fs : List (RefFeature E)) :
    ∀ (s : DedupState E) (n : Nat) (e₀ : E) (t₀ : ℚ),
    s.cache.lookup tid = some (e₀, t₀) →
    (∀ f ∈ fs, f.trackId = tid) →
    SpacedFrom minI t₀ fs →
    (fs.foldl (dedupStep sim minI) (s, n)).2 = n + fs.length := by
  induction fs with
  | nil => intro s n e₀ t₀ _ _ _; rfl
  | cons f rest ih =>
      intro s n e₀ t₀ hlook hall hsp
      have hf : f.trackId = tid := hall f (List.mem_cons_self f rest)
      have hstep : dedupStep sim minI (s, n) f = (keepFeature s f, n + 1) := by
        simp only [dedupStep, processFeature, hf, hlook]
        rw [if_pos ⟨hsp.1, hsim e₀ f.emb⟩]
        simp
      rw [List.foldl_cons, hstep]
      have hlook' : (keepFeature s f).cache.lookup tid = some (f.emb, f.time) := by
        simpa [keepFeature, hf] using
          lookup_cacheSet_self s.cache f.trackId (f.emb, f.time)
      rw [ih (keepFeature s f) (n + 1) f.emb f.time hlook'
        (fun g hg => hall g (List.mem_cons_of_mem f hg)) hsp.2]
      simp only [List.length_cons]
      omega

theorem foldl_dedup_cap {E : Type} (sim : E → E → ℚ) (minI : ℚ)
    (fs : List (RefFeature E)) :
    ∀ (s : DedupState E) (n : Nat), s.features.length ≤ featureCap →
    (fs.foldl (dedupStep sim minI) (s, n)).1.features.length ≤ featureCap := by
  induction fs with
  | nil => intro s n h; exact h
  | cons f rest ih =>
      intro s n h
      rw [List.foldl_cons]
      have hkeep : (keepFeature s f).features.length ≤ featureCap := by
        rw [keepFeature]
        simp only [List.length_drop, List.length_append, List.length_singleton]
        omega
      have hcases : (dedupStep sim minI (s, n) f).1 = keepFeature s f ∨
          (dedupStep sim minI (s, n) f).1 = s := by
        rw [dedupStep]
        rcases hl : s.cache.lookup f.trackId with - | ⟨e, t⟩
        · left
          simp [processFeature, hl]
        · by_cases hc : f.time - t ≥ minI ∧ sim e f.emb < simThreshold
          · left
            simp [processFeature, hl, hc]
          · right
            simp [processFeature, hl, hc]
      have hih := ih (dedupStep sim minI (s, n) f).1 (dedupStep sim minI (s, n) f).2
      rcases hcases with hs' | hs'
      · exact hih (by rw [hs']; exact hkeep)
      · exact hih (by rw [hs']; exact h)

/-- C5 counterexample: two each-time-dissimilar embeddings (similarity 0
< 0.99 to the cached value) submitted for the same identity within the
minimum update interval yield 1 kept feature, not 2 — condition (b)
requires the interval to have elapsed, so "N each-time-dissimilar
embeddings yield N kept features" fails without the spacing proviso. -/
theorem dedup_dissimilar_within_interval_counterexample :
    simEq 1 2 < simThreshold ∧
    (runDedup simEq 10 ⟨[], []⟩
      [⟨1, (1 : ℚ), 0⟩, ⟨1, (2 : ℚ), 1⟩]).2 = 1 ∧
    (1 : Nat) ≠ 2 := by
  refine ⟨by norm_num [simEq, simThreshold], ?_, by decide⟩
  norm_num [runDedup, dedupStep, processFeature, keepFeature, cacheSet, simEq,
    simThreshold, List.lookup, lookup_cacheSet_self]

/-- C5 (amended): a feature with a tracked identity is kept iff (a) no
cached embedding exists for that identity, or (b) at least the minimum
update interval has elapsed since the identity's last kept update AND
the similarity to the cached embedding is below the 0.99 threshold.
Consequently, for a fresh identity, N identical embeddings (self-similar
at ≥ 0.99) yield at most 1 kept feature regardless of timing; N
each-time-dissimilar embeddings, each arriving at least the minimum
interval after the previous kept update, yield N kept features; and the
accumulated feature list is trimmed to the most recent 50 entries. -/
theorem dedup_feature_policy {E : Type} (sim : E → E → ℚ) (minI : ℚ) :
    (∀ (s : DedupState E) (f : RefFeature E),
      ((processFeature sim minI s f).2 = true ↔
        (s.cache.lookup f.trackId = none ∨
          ∃ e t, s.cache.lookup f.trackId = some (e, t) ∧
            f.time - t ≥ minI ∧ sim e f.emb < simThreshold))) ∧
    (∀ (s : DedupState E) (tid : Nat) (e : E) (fs : List (RefFeature E)),
      s.cache.lookup tid = none →
      ¬(sim e e < simThreshold) →
      (∀ f ∈ fs, f.trackId = tid ∧ f.emb = e) →
      (runDedup sim minI s fs).2 ≤ 1) ∧
    (∀ (s : DedupState E) (tid : Nat) (f : RefFeature E) (rest : List (RefFeature E)),
      (∀ a b, sim a b < simThreshold) →
      s.cache.lookup tid = none →
      f.trackId = tid →
      (∀ g ∈ rest, g.trackId = tid) →
      SpacedFrom minI f.time rest →
      (runDedup sim minI s (f :: rest)).2 = (f :: rest).length) ∧
    (∀ (s : DedupState E) (fs : List (RefFeature E)),
      s.features.length ≤ featureCap →
      (runDedup sim minI s fs).1.features.length ≤ featureCap) := by
  refine ⟨?_, ?_, ?_, ?_⟩
  · intro s f
    rcases hl : s.cache.lookup f.trackId with - | ⟨e, t⟩
    · simp [processFeature, hl]
    · by_cases hc : minI ≤ f.time - t ∧ sim e f.emb < simThreshold
      · simp only [processFeature, hl, if_pos (show f.time - t ≥ minI ∧
          sim e f.emb < simThreshold from hc)]
        simp only [true_iff]
        exact Or.inr ⟨e, t, rfl, hc.1, hc.2⟩
      · simp [processFeature, hl, hc]
        intro hel
        by_contra hlt
        exact hc ⟨hel, not_le.mp hlt⟩
  · intro s tid e fs hnone hsim hall
    cases fs with
    | nil => exact Nat.zero_le 1
    | cons f rest =>
        have hf := hall f (List.mem_cons_self f rest)
        have hstep : dedupStep sim minI (s, 0) f = (keepFeature s f, 1) := by
          simp [dedupStep, processFeature, hf.1, hnone]
        have hlook : (keepFeature s f).cache.lookup tid = some (e, f.time) := by
          simpa [keepFeature, hf.1, hf.2] using
            lookup_cacheSet_self s.cache f.trackId (f.emb, f.time)
        rw [runDedup, List.foldl_cons, hstep,
          foldl_dedup_drop_all sim minI tid e rest (keepFeature s f) 1 f.time hlook
            (fun g hg => ⟨(hall g (List.mem_cons_of_mem f hg)).1, by
              rw [(hall g (List.mem_cons_of_mem f hg)).2]
              exact hsim⟩)]
  · intro s tid f rest hsim hnone hf hall hsp
    have hstep : dedupStep sim minI (s, 0) f = (keepFeature s f, 1) := by
      simp [dedupStep, processFeature, hf, hnone]
    have hlook : (keepFeature s f).cache.lookup tid = some (f.emb, f.time) := by
      simpa [keepFeature, hf] using
        lookup_cacheSet_self s.cache f.trackId (f.emb, f.time)
    rw [runDedup, List.foldl_cons, hstep,
      foldl_dedup_keep_all sim minI tid hsim rest (keepFeature s f) 1 f.emb f.time
        hlook hall hsp]
    simp only [List.length_cons]
    omega
  · intro s fs h
    exact foldl_dedup_cap sim minI fs s 0 h

theorem dedup_feature_policy_witness :
    ((DedupState.mk ([] : List (Nat × ℚ × ℚ)) []).cache.lookup 1 = none ∧
      ¬(simEq 1 1 < simThreshold) ∧
      (runDedup simEq 10 ⟨[], []⟩
        [⟨1, (1 : ℚ), 0⟩, ⟨1, (1 : ℚ), 1⟩, ⟨1, (1 : ℚ), 2⟩]).2 ≤ 1) ∧
    ((∀ a b : ℚ, simEq2 a b < simThreshold) ∧
      (runDedup simEq2 10 ⟨[], []⟩
        [⟨1, (1 : ℚ), 0⟩, ⟨1, (2 : ℚ), 10⟩, ⟨1, (3 : ℚ), 20⟩]).2 =
        ([⟨1, (1 : ℚ), 0⟩, ⟨1, (2 : ℚ), 10⟩, ⟨1, (3 : ℚ), 20⟩] :
          List (RefFeature ℚ)).length) ∧
    ((runDedup simEq 10 ⟨[], []⟩
        [⟨1, (1 : ℚ), 0⟩]).1.features.length ≤ featureCap) := by
  have T := dedup_feature_policy simEq 10
  have T2 := dedup_feature_policy simEq2 10
  refine ⟨⟨rfl, by norm_num [simEq, simThreshold], ?_⟩, ⟨?_, ?_⟩, ?_⟩
  · exact T.2.1 ⟨[], []⟩ 1 1 _ rfl (by norm_num [simEq, simThreshold])
      (by intro f hf; fin_cases hf <;> exact ⟨rfl, rfl⟩)
  · intro a b
    norm_num [simEq2, simThreshold]
  · exact T2.2.2.1 ⟨[], []⟩ 1 ⟨1, (1 : ℚ), 0⟩ [⟨1, (2 : ℚ), 10⟩, ⟨1, (3 : ℚ), 20⟩]
      (fun a b => by norm_num [simEq2, simThreshold]) rfl rfl
      (by intro g hg; fin_cases hg <;> rfl)
      (by norm_num [SpacedFrom])
  · exact T.2.2.2 ⟨[], []⟩ [⟨1, (1 : ℚ), 0⟩] (by norm_num [featureCap])

end AiCamera
